import Mathlib

/-!
Verification development for the Texas Hold'em server (src/server.js).

This file gives a shallow embedding of the server's game core — the card
and deck model, the `PokerHand` evaluator, and the `Table` betting state
machine — translated function by function from the JavaScript source, and
proves (or refutes) the specification claims about them.

Conventions of the embedding:
* JavaScript numbers holding chip amounts, bets and pots are modelled as
  `Int` (they can go negative in the source, e.g. a negative call amount);
  card values are `Nat` (always in 2..14).
* A JavaScript `undefined` produced by reading past the end of an array is
  modelled with `Option` (`Deck.deal` on an empty deck returns `none`, as
  `Array.prototype.pop` returns `undefined` without raising).
* The `setTimeout` turn-timer handle `this.turnTimeout` is modelled by the
  boolean `turnTimerArmed` (`true` iff the handle is non-null); the timer
  callback itself is a separate transition and is not fired inline.
* Unbounded `while` loops of the source are given fuel equal to the bound
  the source's own guard enforces (`attempts < this.players.length`), or,
  where the source loop is unbounded (`skipLoop`, `dealUntilShowdown`),
  fuel sufficient for every state reachable by the game; on fuel
  exhaustion the model stops where the source would spin forever.
-/

namespace HoldEm

/-- Card suits, as in the `suits` array of `Deck.reset`. -/
inductive Suit
  | hearts | diamonds | clubs | spades
  deriving DecidableEq

/-- A card: `{ suit, value }` with 11=J, 12=Q, 13=K, 14=A. -/
structure Card where
  suit : Suit
  value : Nat
  deriving DecidableEq

namespace PokerHand

/-- Insertion of one element into a descending-sorted list. -/
def insertDesc (x : Nat) : List Nat → List Nat
  | [] => [x]
  | y :: ys => if y ≤ x then x :: y :: ys else y :: insertDesc x ys

/-- Descending numeric sort, as `values.sort((a, b) => b - a)`. -/
def sortDesc (l : List Nat) : List Nat := l.foldr insertDesc []

/-- Removal of adjacent duplicates (correct deduplication on sorted input). -/
def dedupAdj : List Nat → List Nat
  | [] => []
  | [x] => [x]
  | x :: y :: ys => if x = y then dedupAdj (y :: ys) else x :: dedupAdj (y :: ys)

/-- `[...new Set(values)].sort((a, b) => b - a)`: distinct values, descending. -/
def uniqueDesc (l : List Nat) : List Nat := dedupAdj (sortDesc l)

/-- `PokerHand.checkStraight` (src/server.js:96-112): a run of five
consecutive distinct values, or the wheel A-2-3-4-5. -/
def checkStraight (values : List Nat) : Bool :=
  let u := uniqueDesc values
  if u.length < 5 then false
  else if (List.range (u.length - 4)).any
      (fun i => u.getD i 0 - u.getD (i + 4) 0 == 4) then true
  else u.contains 14 && u.contains 5 && u.contains 4 &&
       u.contains 3 && u.contains 2

/-- `Math.max(...values)`. -/
def maxList (l : List Nat) : Nat := l.foldl max 0

/-- `values.reduce((acc, v, i) => acc + v * Math.pow(100, 4 - i), 0)` on the
five descending values (positional base-100 weights). `evaluateHand` is only
reached with exactly five cards, where this matches the source exactly. -/
def weight5 (vs : List Nat) : Nat :=
  (vs.zipWith (· * ·) [100000000, 1000000, 10000, 100, 1]).sum

/-- `PokerHand.evaluateHand` (src/server.js:47-94): classify five cards into
one of the nine categories and compute the numeric score. Key extraction
(`Object.keys(valueCounts)`) iterates numeric keys in ascending order, hence
`uniqueAsc` below. -/
def evaluateHand (cards : List Card) : Nat × Nat :=
  let values := sortDesc (cards.map (·.value))
  let suits := cards.map (·.suit)
  let isFlush := match suits with
    | [] => true
    | s :: rest => rest.all (· == s)
  let isStraight := checkStraight values
  let uniqueAsc := (uniqueDesc values).reverse
  let counts := sortDesc (uniqueAsc.map (fun v => values.count v))
  let c0 := counts.getD 0 0
  let c1 := counts.getD 1 0
  if isStraight && isFlush then
    (8, 8000000 + maxList values)
  else if c0 == 4 then
    let quad := (uniqueAsc.find? (fun v => values.count v == 4)).getD 0
    (7, 7000000 + quad * 1000)
  else if c0 == 3 && c1 == 2 then
    let trip := (uniqueAsc.find? (fun v => values.count v == 3)).getD 0
    let pair := (uniqueAsc.find? (fun v => values.count v == 2)).getD 0
    (6, 6000000 + trip * 1000 + pair)
  else if isFlush then
    (5, 5000000 + weight5 values)
  else if isStraight then
    (4, 4000000 + maxList values)
  else if c0 == 3 then
    let trip := (uniqueAsc.find? (fun v => values.count v == 3)).getD 0
    (3, 3000000 + trip * 1000)
  else if c0 == 2 && c1 == 2 then
    let pairs := sortDesc (uniqueAsc.filter (fun v => values.count v == 2))
    (2, 2000000 + pairs.getD 0 0 * 10000 + pairs.getD 1 0 * 100)
  else if c0 == 2 then
    let pair := (uniqueAsc.find? (fun v => values.count v == 2)).getD 0
    (1, 1000000 + pair * 1000)
  else
    (0, weight5 values)

/-- `PokerHand.getCombinations` (src/server.js:30-45): all k-element
subsequences, in the source's enumeration order. -/
def getCombinations : List Card → Nat → List (List Card)
  | _, 0 => [[]]
  | [], _ + 1 => []
  | x :: xs, k + 1 =>
      (getCombinations xs k).map (x :: ·) ++ getCombinations xs (k + 1)

/-- `PokerHand.rankHand` (src/server.js:15-28): guard on exactly 7 cards,
then the best (strictly greater score wins) of the 21 five-card subsets,
starting from the default `{ rank: 0, score: 0 }`. -/
def rankHand (cards : List Card) : Nat × Nat :=
  if cards.length ≠ 7 then (0, 0)
  else (getCombinations cards 5).foldl
    (fun best c =>
      let r := evaluateHand c
      if best.2 < r.2 then r else best) (0, 0)

/-- The best (largest) category among the 21 five-card subsets, using the
source's own classifier `evaluateHand`. This is the "category of the best
5-card hand" of the specification. -/
def bestRank (cards : List Card) : Nat :=
  ((getCombinations cards 5).map (fun c => (evaluateHand c).1)).foldl max 0

end PokerHand

namespace Deck

/-- The ordered 52-card deck built by `Deck.reset` before shuffling
(suits outer loop, values 2..14 inner loop). -/
def fullDeck : List Card :=
  ([Suit.hearts, Suit.diamonds, Suit.clubs, Suit.spades].map (fun s =>
    (List.range 13).map (fun i => Card.mk s (i + 2)))).flatten

/-- Swap of two positions of a list (identity when out of range). -/
def listSwap (l : List Card) (i j : Nat) : List Card :=
  match l.get? i, l.get? j with
  | some x, some y => (l.set i y).set j x
  | _, _ => l

/-- The Fisher–Yates pass of `Deck.shuffle` (src/server.js:137-142), with the
stream of random draws supplied as input: at step `i` (scanning from the
end), position `i` is swapped with position `rands.head % (i+1)`, the model
of `Math.floor(Math.random() * (i + 1))`. -/
def shuffleAux (l : List Card) : Nat → List Nat → List Card
  | 0, _ => l
  | i + 1, rands =>
      shuffleAux (listSwap l (i + 1) (rands.headD 0 % (i + 2))) i rands.tail

def shuffle (rands : List Nat) (l : List Card) : List Card :=
  shuffleAux l (l.length - 1) rands

/-- `Deck.reset` (src/server.js:125-135): rebuild the 52 cards, then shuffle. -/
def reset (rands : List Nat) : List Card := shuffle rands fullDeck

/-- `Deck.deal` (src/server.js:144-146): `this.cards.pop()` — remove and
return the top (last) card; on an empty deck, `pop` returns `undefined`
(modelled `none`) without raising any error. -/
def deal (d : List Card) : Option Card × List Card := (d.getLast?, d.dropLast)

/-- The deck left after `k` successive calls of `deal`. -/
def dealN : Nat → List Card → List Card
  | 0, d => d
  | k + 1, d => (deal (dealN k d)).2

end Deck

/-- A seated player, as built by `Table.addPlayer` (src/server.js:198-208).
`hasActedThisRound`, `lastAction` and `eliminated` are absent (undefined,
hence falsy / `none`) until first assigned, so they default accordingly. -/
structure Player where
  socketId : Nat
  username : String
  chips : Int
  bet : Int
  folded : Bool
  cards : List Card
  disconnected : Bool
  isAllIn : Bool
  totalBetThisRound : Int
  hasActedThisRound : Bool := false
  lastAction : Option String := none
  eliminated : Bool := false
  deriving DecidableEq

/-- Stand-in for a JavaScript `undefined` player (out-of-range index read);
only ever consulted on paths the source cannot reach with a valid index. -/
def noPlayer : Player :=
  { socketId := 0, username := "", chips := 0, bet := 0, folded := false,
    cards := [], disconnected := true, isAllIn := false, totalBetThisRound := 0 }

/-- Values of `this.gamePhase`. -/
inductive Phase
  | waiting | preflop | flop | turn | river | showdown | waiting_next_hand | ended
  deriving DecidableEq

/-- Table state (src/server.js:149-180), restricted to the fields the game
core reads or writes (static settings the claims never touch — password,
turn-timer seconds, host-disconnect policy, new-player chip policy — are
omitted). `turnTimerArmed` models `this.turnTimeout !== null`. -/
structure Table where
  hostId : Nat
  name : String
  maxPlayers : Nat
  startingChips : Int
  smallBlind : Int
  bigBlind : Int
  blindIncreasePerElim : Bool
  blindIncreaseAmount : Int
  players : List Player
  spectators : List (Nat × String)
  gameStarted : Bool
  paused : Bool
  deck : List Card
  communityCards : List Card
  pot : Int
  currentBet : Int
  minRaise : Int
  dealerPosition : Int
  currentTurnPosition : Int
  gamePhase : Phase
  turnTimerArmed : Bool
  actionLog : List String
  deriving DecidableEq

/-- The predicate of `getActivePlayers` (src/server.js:221-223):
`p.chips > 0 && !p.disconnected`. -/
def isActiveP (p : Player) : Bool := decide (0 < p.chips) && !p.disconnected

/-- The predicate of `getPlayersInHand` (src/server.js:225-227):
`!p.folded && !p.disconnected && p.chips >= 0`. -/
def inHandP (p : Player) : Bool := !p.folded && !p.disconnected && decide (0 ≤ p.chips)

/-- The next-actor condition of `moveToNextPlayer` (src/server.js:464):
`!p.folded && !p.disconnected && !p.isAllIn && p.chips > 0`. -/
def mvQual (p : Player) : Bool :=
  !p.folded && !p.disconnected && !p.isAllIn && decide (0 < p.chips)

/-- The first-to-act condition of the post-deal seek in `advanceToNextStreet`
(src/server.js:512): `!p.folded && !p.isAllIn && p.chips > 0`. -/
def skipQual (p : Player) : Bool := !p.folded && !p.isAllIn && decide (0 < p.chips)

namespace Table

def activePlayers (t : Table) : List Player := t.players.filter isActiveP

def playersInHand (t : Table) : List Player := t.players.filter inHandP

/-- `this.actionLog.push(message)` (src/server.js:648-650). -/
def broadcastAction (t : Table) (msg : String) : Table :=
  { t with actionLog := t.actionLog ++ [msg] }

/-- `clearTurnTimer` (src/server.js:641-646): drop the pending timeout. -/
def clearTurnTimer (t : Table) : Table := { t with turnTimerArmed := false }

/-- `startTurnTimer` (src/server.js:629-639): clear, then arm a fresh
countdown (the timeout callback is a separate transition). -/
def startTurnTimer (t : Table) : Table := { t with turnTimerArmed := true }

/-- The `while (attempts < this.players.length)` scan of
`getNextActivePosition` (src/server.js:318-335). -/
def scanActive (t : Table) : Nat → Nat → Int
  | 0, _ => -1
  | fuel + 1, pos =>
    match t.players.get? pos with
    | some p =>
        if isActiveP p then (pos : Int)
        else scanActive t fuel ((pos + 1) % t.players.length)
    | none => scanActive t fuel ((pos + 1) % t.players.length)

/-- `getNextActivePosition` (src/server.js:318-335): first seat with
`chips > 0 && !disconnected` scanning cyclically from `fromPos + 1`;
`-1` when no one is active. -/
def getNextActivePosition (t : Table) (fromPos : Int) : Int :=
  if t.activePlayers.length = 0 then -1
  else t.scanActive t.players.length
    (((fromPos + 1) % (t.players.length : Int)).toNat)

/-- The per-seat hole-card dealing of `startNewHand` (src/server.js:271-273):
each active player, in seat order, receives two dealt cards. On an
exhausted deck the source would store `undefined` in the hand; the model
simply stores fewer cards (unreachable: the deck has 52 cards here). -/
def dealHole : List Player → List Card → List Player × List Card
  | [], d => ([], d)
  | p :: ps, d =>
    if isActiveP p then
      let c1 := (Deck.deal d).1
      let d1 := (Deck.deal d).2
      let c2 := (Deck.deal d1).1
      let d2 := (Deck.deal d1).2
      let rest := dealHole ps d2
      ({ p with cards := ([c1, c2].filterMap id) } :: rest.1, rest.2)
    else
      let rest := dealHole ps d
      (p :: rest.1, rest.2)

/-- The per-hand reset of `startNewHand` (src/server.js:249-265): fresh
shuffled deck, cleared board/pot/bets/log, `minRaise = bigBlind`, phase
`preflop`, every seat's per-hand fields zeroed. -/
def resetForHand (t : Table) (rands : List Nat) : Table :=
  { t with
    deck := Deck.reset rands,
    communityCards := [], pot := 0, currentBet := 0,
    minRaise := t.bigBlind, gamePhase := Phase.preflop, actionLog := [],
    players := t.players.map (fun p : Player => { p with
      bet := 0, folded := false, cards := [], isAllIn := false,
      totalBetThisRound := 0, hasActedThisRound := false }) }

/-- The hole-card dealing step of `startNewHand` (src/server.js:271-273). -/
def withDealtCards (t : Table) : Table :=
  { t with
    players := (dealHole t.players t.deck).1,
    deck := (dealHole t.players t.deck).2 }

/-- One blind post of `startNewHand` (src/server.js:291-308): the seat at
`pos` puts `min blind chips` into the pot, recorded as its bet, going
all-in when that empties the stack. -/
def postBlind (t : Table) (pos : Int) (blind : Int) : Table :=
  let idx := pos.toNat
  let pl := t.players.getD idx noPlayer
  let amt := min blind pl.chips
  let chips := pl.chips - amt
  { t with
    players := t.players.set idx { pl with
      chips := chips, bet := amt, totalBetThisRound := amt,
      isAllIn := if chips == 0 then true else pl.isAllIn },
    pot := t.pot + amt }

/-- `startNewHand` (src/server.js:239-316). `rands` feeds the shuffle.
Log messages are abbreviated (their text carries no game state). -/
def startNewHand (t : Table) (rands : List Nat) : Table :=
  if t.activePlayers.length < 2 then
    let t1 := { t with gamePhase := Phase.ended }
    if t.activePlayers.length = 1 then
      t1.broadcastAction
        ((t.activePlayers.getD 0 noPlayer).username ++ " wins the tournament!")
    else t1
  else
    let t1 := t.resetForHand rands
    let t2 := { t1 with dealerPosition := t1.getNextActivePosition t1.dealerPosition }
    let t3 := t2.withDealtCards
    let isHeadsUp := t.activePlayers.length == 2
    let sbPos : Int :=
      if isHeadsUp then t3.dealerPosition
      else t3.getNextActivePosition t3.dealerPosition
    let bbPos : Int := t3.getNextActivePosition sbPos
    let firstToAct : Int :=
      if isHeadsUp then sbPos else t3.getNextActivePosition bbPos
    let t4 := t3.postBlind sbPos t3.smallBlind
    let bbAmount := min t4.bigBlind (t4.players.getD bbPos.toNat noPlayer).chips
    let t5 := { t4.postBlind bbPos t4.bigBlind with currentBet := bbAmount }
    let t6 := (t5.broadcastAction
        ((t3.players.getD sbPos.toNat noPlayer).username ++ " posts small blind")
      ).broadcastAction
        ((t4.players.getD bbPos.toNat noPlayer).username ++ " posts big blind")
    ({ t6 with currentTurnPosition := firstToAct }).startTurnTimer

/-- `isBettingRoundComplete` (src/server.js:439-454): every player who can
still act has acted and has matched (or exceeds) the current bet; an empty
list is trivially complete. -/
def isBettingRoundComplete (t : Table) : Bool :=
  let canAct := t.playersInHand.filter (fun p => !p.folded && !p.isAllIn)
  canAct.all (fun p => p.hasActedThisRound && decide (t.currentBet ≤ p.bet))

/-- The showdown participants by seat index: `getPlayersInHand().filter(p =>
!p.folded)` of `determineWinner` (src/server.js:550-551), kept as indices so
that chip awards address the same player objects the source mutates. -/
def showdownIdxs (t : Table) : List Nat :=
  (List.range t.players.length).filter (fun k =>
    let p := t.players.getD k noPlayer
    inHandP p && !p.folded)

/-- The evaluator score of one showdown participant:
`PokerHand.rankHand([...p.cards, ...this.communityCards]).score`. -/
def handScore (t : Table) (k : Nat) : Nat :=
  (PokerHand.rankHand ((t.players.getD k noPlayer).cards ++ t.communityCards)).2

/-- The tied top-score participants. The source sorts the evaluations by
descending score and collects the leading run of equal scores
(src/server.js:565-575); that run is exactly the set of participants whose
score equals the maximum, which this computes directly. -/
def showdownWinners (t : Table) : List Nat :=
  let idxs := t.showdownIdxs
  let maxScore := (idxs.map t.handScore).foldl max 0
  idxs.filter (fun k => t.handScore k == maxScore)

/-- `winners.forEach(w => w.player.chips += splitAmount)`: add `amt` chips at
each listed seat in turn. -/
def addChipsAt (l : List Player) (idxs : List Nat) (amt : Int) : List Player :=
  idxs.foldl (fun acc k =>
    acc.set k { acc.getD k noPlayer with chips := (acc.getD k noPlayer).chips + amt }) l

/-- `scheduleNextHand` (src/server.js:598-627): blind escalation per
elimination, removal of busted seats, end-of-tournament check; the 5-second
`setTimeout` to the next hand is a separate transition. -/
def scheduleNextHand (t : Table) : Table :=
  let hasElim := t.players.any (fun p => p.chips == 0 && !p.eliminated)
  let t1 : Table :=
    if t.blindIncreasePerElim && hasElim then
      let sb := t.smallBlind + t.blindIncreaseAmount
      ({ t with
        players := t.players.map (fun p : Player =>
          if p.chips == 0 && !p.eliminated then { p with eliminated := true } else p),
        smallBlind := sb, bigBlind := sb * 2 }).broadcastAction "Blinds increased"
    else t
  let t2 : Table :=
    { t1 with players := t1.players.filter (fun p : Player => decide (0 < p.chips)) }
  if t2.activePlayers.length < 2 then
    let t3 := { t2 with gamePhase := Phase.ended }
    if t2.activePlayers.length = 1 then
      t3.broadcastAction
        ((t2.activePlayers.getD 0 noPlayer).username ++ " wins the tournament!")
    else t3
  else { t2 with gamePhase := Phase.waiting_next_hand }

/-- `endHand` (src/server.js:593-596): the winning seat takes the whole pot
(the `pot` field itself is not reset here), then `scheduleNextHand`. -/
def endHand (t : Table) (i : Nat) : Table :=
  let p := t.players.getD i noPlayer
  ({ t with players := t.players.set i { p with chips := p.chips + t.pot } }).scheduleNextHand

/-- `determineWinner` (src/server.js:550-591). Winner log messages are
abbreviated. -/
def determineWinner (t : Table) : Table :=
  let idxs := t.showdownIdxs
  if idxs.length == 0 then t
  else if idxs.length == 1 then t.endHand (idxs.getD 0 0)
  else
    let winners := t.showdownWinners
    if winners.length == 1 then
      (t.broadcastAction "wins the pot").endHand (winners.getD 0 0)
    else
      let split := Int.fdiv t.pot (winners.length : Int)
      ({ t with players := addChipsAt t.players winners split
        }.broadcastAction "split pot").scheduleNextHand

/-- `dealNextStreet` (src/server.js:521-542). Log messages are abbreviated;
`undefined` community cards from an exhausted deck are dropped rather than
stored (unreachable in play). -/
def dealNextStreet (t : Table) : Table :=
  match t.gamePhase with
  | Phase.preflop =>
    let (c1, d1) := Deck.deal t.deck
    let (c2, d2) := Deck.deal d1
    let (c3, d3) := Deck.deal d2
    ({ t with
      gamePhase := Phase.flop, deck := d3,
      communityCards := t.communityCards ++ [c1, c2, c3].filterMap id
     }).broadcastAction "Flop"
  | Phase.flop =>
    let (c, d1) := Deck.deal t.deck
    ({ t with
      gamePhase := Phase.turn, deck := d1,
      communityCards := t.communityCards ++ [c].filterMap id
     }).broadcastAction "Turn"
  | Phase.turn =>
    let (c, d1) := Deck.deal t.deck
    ({ t with
      gamePhase := Phase.river, deck := d1,
      communityCards := t.communityCards ++ [c].filterMap id
     }).broadcastAction "River"
  | Phase.river => { t with gamePhase := Phase.showdown }
  | _ => t

/-- The `while (this.gamePhase !== 'showdown') this.dealNextStreet()` runout
loop of `advanceToNextStreet` (src/server.js:491-493); four iterations reach
showdown from any betting phase (the source loop is unbounded and would spin
on the non-betting phases its callers never pass it). -/
def dealUntilShowdown : Table → Nat → Table
  | t, 0 => t
  | t, fuel + 1 =>
    if t.gamePhase == Phase.showdown then t
    else dealUntilShowdown t.dealNextStreet fuel

/-- The post-deal seek for the first seat that may open the betting
(src/server.js:510-516): follow `getNextActivePosition` until a non-folded,
non-all-in seat with chips is found. The source loop is unbounded; fuel
`players.length` covers every reachable state. -/
def skipLoop (t : Table) : Nat → Int → Int
  | 0, pos => pos
  | fuel + 1, pos =>
    if pos == -1 then pos
    else
      match t.players.get? pos.toNat with
      | some p =>
          if skipQual p then pos
          else t.skipLoop fuel (t.getNextActivePosition pos)
      | none => t.skipLoop fuel (t.getNextActivePosition pos)

/-- The street-entry reset of `advanceToNextStreet` (src/server.js:477-483):
zero every bet and acted flag, reset `currentBet` and `minRaise`. -/
def streetReset (t : Table) : Table :=
  { t with
    players := t.players.map (fun p => { p with bet := 0, hasActedThisRound := false }),
    currentBet := 0, minRaise := t.bigBlind }

/-- `advanceToNextStreet` (src/server.js:476-519). -/
def advanceToNextStreet (t : Table) : Table :=
  let t1 := t.streetReset
  let canAct := (t1.playersInHand.filter (fun p => !p.folded)).filter
    (fun p => !p.isAllIn && decide (0 < p.chips))
  if canAct.length ≤ 1 then
    (dealUntilShowdown t1 4).determineWinner
  else
    let t2 := t1.dealNextStreet
    if t2.gamePhase == Phase.showdown then t2.determineWinner
    else
      let pos := t2.skipLoop t2.players.length
        (t2.getNextActivePosition t2.dealerPosition)
      ({ t2 with currentTurnPosition := pos }).startTurnTimer

/-- The `while` loop of `moveToNextPlayer` (src/server.js:456-474): advance
`currentTurnPosition` cyclically up to `players.length` times looking for a
seat that can act; returns the final position and whether one was found. -/
def mvScan (t : Table) : Nat → Int → Int × Bool
  | 0, pos => (pos, false)
  | fuel + 1, pos =>
    let pos' := (pos + 1) % (t.players.length : Int)
    match t.players.get? pos'.toNat with
    | some p =>
        if mvQual p then (pos', true)
        else t.mvScan fuel pos'
    | none => t.mvScan fuel pos'

/-- `moveToNextPlayer` (src/server.js:456-474): seek the next seat that can
act and restart the turn timer; if none is found in a full cycle, advance to
the next street (with `currentTurnPosition` left where the scan stopped,
exactly as the source's in-place increments leave it). -/
def moveToNextPlayer (t : Table) : Table :=
  let (pos, found) := t.mvScan t.players.length t.currentTurnPosition
  if found then ({ t with currentTurnPosition := pos }).startTurnTimer
  else { t with currentTurnPosition := pos }.advanceToNextStreet

/-- `this.players.find(p => p.socketId === socketId)` as an index
(`getPlayer`, src/server.js:217-219). -/
def getPlayerIdx (t : Table) (sid : Nat) : Option Nat :=
  t.players.findIdx? (fun p => p.socketId == sid)

/-- The turn check of `playerAction` (src/server.js:342):
`this.players[this.currentTurnPosition]?.socketId !== socketId` — an
out-of-range (or `-1`) index reads `undefined`, never equal to `socketId`. -/
def turnOk (t : Table) (sid : Nat) : Bool :=
  if t.currentTurnPosition < 0 then false
  else
    match t.players.get? t.currentTurnPosition.toNat with
    | some q => q.socketId == sid
    | none => false

/-- The `switch (action)` body of `playerAction` (src/server.js:349-414),
acting on the seat at index `i` (the seat `getPlayer` found for `sid`).
`none` is the `return false` of an illegal check, an illegal raise, or an
unknown action string. In the raise case the source updates the raiser and
then clears `hasActedThisRound` on every other live seat; the `forEach`
skips the raiser by socket id, so resetting the others first and then
writing the raiser at `i` (whose `socketId` is `sid`) is the same update. -/
def applyAction (t : Table) (i : Nat) (sid : Nat) (action : String) (amount : Int) :
    Option (Table × String) :=
  let p := t.players.getD i noPlayer
  let callAmount := t.currentBet - p.bet
  if action == "fold" then
    some ({ t with players := t.players.set i { p with folded := true } },
          p.username ++ " folds")
  else if action == "check" then
    if p.bet < t.currentBet then none
    else
      some ({ t with players := t.players.set i { p with hasActedThisRound := true } },
            p.username ++ " checks")
  else if action == "call" then
    let actualCall := min callAmount p.chips
    let chips := p.chips - actualCall
    let p' := { p with
      chips := chips, bet := p.bet + actualCall,
      totalBetThisRound := p.totalBetThisRound + actualCall,
      hasActedThisRound := true,
      isAllIn := if chips == 0 then true else p.isAllIn }
    some ({ t with players := t.players.set i p', pot := t.pot + actualCall },
          p.username ++ (if chips == 0 then " calls (all-in)" else " calls"))
  else if action == "raise" then
    if amount ≤ t.currentBet then none
    else if amount - t.currentBet < t.minRaise && amount < p.chips + p.bet then none
    else if p.chips + p.bet < amount then none
    else
      let raiseAmount := amount - p.bet
      let chips := p.chips - raiseAmount
      let others := t.players.map (fun q =>
        if q.socketId != sid && !q.folded && !q.isAllIn then
          { q with hasActedThisRound := false }
        else q)
      let p' := { p with
        chips := chips, bet := amount,
        totalBetThisRound := p.totalBetThisRound + raiseAmount,
        hasActedThisRound := true,
        isAllIn := if chips == 0 then true else p.isAllIn }
      some ({ t with
              players := others.set i p', pot := t.pot + raiseAmount,
              minRaise := amount - t.currentBet, currentBet := amount },
            p.username ++ (if chips == 0 then " raises (all-in)" else " raises"))
  else none

/-- The first seat of `getPlayersInHand().filter(p => !p.folded)` — the
`notFolded[0]` reference `playerAction` hands to `endHand` when everyone
else has folded (src/server.js:420-427). -/
def firstShowdownIdx (t : Table) : Nat :=
  ((List.range t.players.length).filter (fun k =>
    let p := t.players.getD k noPlayer
    inHandP p && !p.folded)).getD 0 0

/-- The epilogue of an accepted action (src/server.js:416-436): record
`lastAction`, log, then either award the pot to the lone remaining player,
advance the street, or pass the turn. -/
def afterAction (t : Table) (i : Nat) (action : String) (msg : String) : Table :=
  let t1 := { t with
    players := t.players.set i
      { t.players.getD i noPlayer with lastAction := some action } }
  let t2 := t1.broadcastAction msg
  let notFolded := t2.playersInHand.filter (fun p => !p.folded)
  if notFolded.length == 1 then t2.endHand t2.firstShowdownIdx
  else if t2.isBettingRoundComplete then t2.advanceToNextStreet
  else t2.moveToNextPlayer

/-- `playerAction` (src/server.js:337-437): validation gates, timer clear,
the action switch, then the epilogue. Returns the source's boolean result
together with the table state it leaves behind. -/
def playerAction (t : Table) (sid : Nat) (action : String) (amount : Int) :
    Bool × Table :=
  match t.getPlayerIdx sid with
  | none => (false, t)
  | some i =>
    let p := t.players.getD i noPlayer
    if p.folded || p.isAllIn || t.paused then (false, t)
    else if !t.turnOk sid then (false, t)
    else
      let t1 := t.clearTurnTimer
      match t1.applyAction i sid action amount with
      | none => (false, t1)
      | some (t2, msg) => (true, t2.afterAction i action msg)

/-- The per-seat public projection of `getPublicState`
(src/server.js:661-680): every field of the seat except the hole cards. -/
structure PublicPlayer where
  socketId : Nat
  username : String
  chips : Int
  bet : Int
  folded : Bool
  disconnected : Bool
  isAllIn : Bool
  lastAction : Option String
  deriving DecidableEq

def publicPlayer (p : Player) : PublicPlayer :=
  { socketId := p.socketId, username := p.username, chips := p.chips,
    bet := p.bet, folded := p.folded, disconnected := p.disconnected,
    isAllIn := p.isAllIn, lastAction := p.lastAction }

/-- The personalized state view of `getGameState` (src/server.js:682-707),
public table state spread included (src/server.js:661-680). -/
structure GameState where
  id_name : String
  players : List PublicPlayer
  spectatorCount : Nat
  gameStarted : Bool
  maxPlayers : Nat
  paused : Bool
  communityCards : List Card
  pot : Int
  currentBet : Int
  gamePhase : Phase
  dealerIndex : Int
  currentPlayerSocketId : Option Nat
  smallBlind : Int
  bigBlind : Int
  playerCards : Option (List Card)
  isHost : Bool
  isSpectator : Bool
  actionLog : List String
  mySocketId : Nat
  deriving DecidableEq

/-- `getGameState(socketId)` (src/server.js:682-707): the view delivered to
one connection — all seats through `publicPlayer` (no hole cards), plus the
recipient's own hole cards (`null`, i.e. `none`, when not seated). -/
def getGameState (t : Table) (sid : Nat) : GameState :=
  let player := t.players.find? (fun p => p.socketId == sid)
  let isSpectator := t.spectators.any (fun s => s.1 == sid)
  let currentPlayerSocketId : Option Nat :=
    if 0 ≤ t.currentTurnPosition ∧ t.currentTurnPosition < (t.players.length : Int) then
      (t.players.get? t.currentTurnPosition.toNat).map (·.socketId)
    else none
  { id_name := t.name,
    players := t.players.map publicPlayer,
    spectatorCount := t.spectators.length,
    gameStarted := t.gameStarted,
    maxPlayers := t.maxPlayers,
    paused := t.paused,
    communityCards := t.communityCards,
    pot := t.pot,
    currentBet := t.currentBet,
    gamePhase := t.gamePhase,
    dealerIndex := t.dealerPosition,
    currentPlayerSocketId := currentPlayerSocketId,
    smallBlind := t.smallBlind,
    bigBlind := t.bigBlind,
    playerCards := player.map (·.cards),
    isHost := sid == t.hostId,
    isSpectator := isSpectator,
    actionLog := t.actionLog,
    mySocketId := sid }

end Table

/-! ### Concrete instances used by the claim theorems -/

/-- A freshly seated player (`Table.addPlayer`, src/server.js:198-208). -/
def seatedPlayer (sid : Nat) (nm : String) (chips : Int) : Player :=
  { socketId := sid, username := nm, chips := chips, bet := 0, folded := false,
    cards := [], disconnected := false, isAllIn := false, totalBetThisRound := 0 }

/-- A small table template for concrete scenarios. -/
def baseTable (ps : List Player) : Table :=
  { hostId := 1, name := "t", maxPlayers := 8, startingChips := 100,
    smallBlind := 1, bigBlind := 2, blindIncreasePerElim := false,
    blindIncreaseAmount := 0, players := ps, spectators := [],
    gameStarted := true, paused := false, deck := [],
    communityCards := [], pot := 0, currentBet := 0, minRaise := 2,
    dealerPosition := -1, currentTurnPosition := -1,
    gamePhase := Phase.waiting, turnTimerArmed := false, actionLog := [] }

/-- Seven cards whose best five-card hand is the 2-6 hearts straight flush. -/
def straightFlushSeven : List Card :=
  [⟨Suit.hearts, 2⟩, ⟨Suit.hearts, 3⟩, ⟨Suit.hearts, 4⟩, ⟨Suit.hearts, 5⟩,
   ⟨Suit.hearts, 6⟩, ⟨Suit.diamonds, 13⟩, ⟨Suit.clubs, 9⟩]

/-- Seven cards with no pair, no flush and no straight: every five-card
subset is a high-card hand. -/
def aceHighSeven : List Card :=
  [⟨Suit.hearts, 14⟩, ⟨Suit.diamonds, 13⟩, ⟨Suit.clubs, 12⟩, ⟨Suit.spades, 11⟩,
   ⟨Suit.hearts, 9⟩, ⟨Suit.diamonds, 8⟩, ⟨Suit.clubs, 2⟩]

/-- The unsuited wheel A-2-3-4-5. -/
def wheelFive : List Card :=
  [⟨Suit.hearts, 14⟩, ⟨Suit.diamonds, 2⟩, ⟨Suit.clubs, 3⟩, ⟨Suit.spades, 4⟩,
   ⟨Suit.hearts, 5⟩]

/-- The unsuited 2-3-4-5-6 straight. -/
def sixHighFive : List Card :=
  [⟨Suit.hearts, 2⟩, ⟨Suit.diamonds, 3⟩, ⟨Suit.clubs, 4⟩, ⟨Suit.spades, 5⟩,
   ⟨Suit.hearts, 6⟩]

/-- Mid-hand table where seat 0 (socket 1) holds the turn with an armed
timer, but faces a bet it has not matched, so checking is illegal. -/
def rejectedCheckTable : Table :=
  { baseTable [seatedPlayer 1 "a" 100,
               { seatedPlayer 2 "b" 88 with bet := 10, hasActedThisRound := true }] with
    gamePhase := Phase.preflop, pot := 10, currentBet := 10,
    currentTurnPosition := 0, turnTimerArmed := true }

/-- Mid-hand table where seat 0 (socket 1) holds the turn with a street bet
of 50 strictly above `currentBet = 30` (reachable when a short-stacked big
blind posts less than the small blind). -/
def checkAboveBetTable : Table :=
  { baseTable [{ seatedPlayer 1 "a" 50 with bet := 50 },
               { seatedPlayer 2 "b" 70 with bet := 30 }] with
    gamePhase := Phase.preflop, pot := 80, currentBet := 30,
    currentTurnPosition := 0, turnTimerArmed := true }

/-- Mid-hand table with two seats holding hole cards, used to witness the
privacy theorem. -/
def privacyTable : Table :=
  { baseTable [{ seatedPlayer 1 "a" 99 with cards := [⟨Suit.hearts, 14⟩, ⟨Suit.hearts, 13⟩] },
               { seatedPlayer 2 "b" 98 with cards := [⟨Suit.spades, 2⟩, ⟨Suit.clubs, 3⟩] }] with
    gamePhase := Phase.preflop, pot := 3, currentBet := 2,
    currentTurnPosition := 0, turnTimerArmed := true }

/-- `t` with seat `j`'s hole cards replaced by `cs` and nothing else
changed: the "two table states that differ only in another player's hole
cards" of the privacy claim. -/
def setHoleCards (t : Table) (j : Nat) (cs : List Card) : Table :=
  { t with
    players := t.players.set j { t.players.getD j noPlayer with cards := cs } }

/-! ### General list helpers shared by the claim proofs -/

theorem getD_map_proj {α β : Type} (f : α → β) (l : List α) (k : Nat) (d : α) :
    (l.map f).getD k (f d) = f (l.getD k d) := by
  induction l generalizing k with
  | nil => rfl
  | cons x xs ih => cases k with
    | zero => rfl
    | succ k => simpa using ih k

theorem map_set_same {α β : Type} (f : α → β) (l : List α) (j : Nat) (a d : α)
    (hf : f a = f (l.getD j d)) : (l.set j a).map f = l.map f := by
  induction l generalizing j with
  | nil => rfl
  | cons x xs ih =>
    cases j with
    | zero => simpa using hf
    | succ j =>
      simp only [List.set_cons_succ, List.map_cons, List.cons.injEq, true_and]
      exact ih j (by simpa using hf)

theorem find?_set_same {α : Type} (p : α → Bool) (l : List α) (j : Nat) (a d : α)
    (ha : p a = false) (hd : p (l.getD j d) = false) :
    (l.set j a).find? p = l.find? p := by
  induction l generalizing j with
  | nil => rfl
  | cons x xs ih =>
    cases j with
    | zero =>
      have hx : p x = false := by simpa using hd
      simp [List.find?_cons, hx, ha]
    | succ j =>
      cases hx : p x with
      | true => simp [List.find?_cons, hx]
      | false => simpa [List.find?_cons, hx] using ih j (by simpa using hd)

theorem int_emod_shift (a c n : Int) : (a % n + c) % n = (a + c) % n := by
  conv_rhs => rw [← Int.ediv_add_emod a n]
  rw [show n * (a / n) + a % n + c = a % n + c + n * (a / n) from by ring,
    Int.add_mul_emod_self_left]

theorem get?_eq_some_getD {α : Type} (l : List α) (m : Nat) (d : α)
    (hm : m < l.length) : l.get? m = some (l.getD m d) := by
  rw [List.get?_eq_getElem?, List.getElem?_eq_getElem hm]
  simp [List.getD_eq_getElem?_getD, List.getElem?_eq_getElem hm]

theorem getD_map_of_lt {α β : Type} (f : α → β) (l : List α) (k : Nat) (d : β)
    (d' : α) (hk : k < l.length) : (l.map f).getD k d = f (l.getD k d') := by
  rw [List.getD_eq_getElem?_getD, List.getElem?_map, List.getElem?_eq_getElem hk]
  simp [List.getD_eq_getElem?_getD, List.getElem?_eq_getElem hk]

theorem getD_mem {α : Type} (l : List α) (m : Nat) (d : α) (hm : m < l.length) :
    l.getD m d ∈ l := by
  have : l.getD m d = l[m] := by
    simp [List.getD_eq_getElem?_getD, List.getElem?_eq_getElem hm]
  rw [this]
  exact List.getElem_mem hm

theorem all_false_of_mem {α : Type} (l : List α) (p : α → Bool) (x : α)
    (hx : x ∈ l) (hpx : p x = false) : l.all p = false := by
  cases h : l.all p with
  | false => rfl
  | true => exact absurd (List.all_eq_true.mp h x hx) (by simp [hpx])

theorem two_le_length_filter {α : Type} (q : α → Bool) (l : List α) (d : α)
    (i j : Nat) (hi : i < l.length) (hj : j < l.length) (hij : i ≠ j)
    (hqi : q (l.getD i d) = true) (hqj : q (l.getD j d) = true) :
    2 ≤ (l.filter q).length := by
  induction l generalizing i j with
  | nil => simp at hi
  | cons x xs ih =>
    have one_of : ∀ m : Nat, m < xs.length → q (xs.getD m d) = true →
        1 ≤ (xs.filter q).length := by
      intro m hm hqm
      have : xs.getD m d ∈ xs.filter q :=
        List.mem_filter.mpr ⟨getD_mem xs m d hm, hqm⟩
      calc 1 ≤ 1 := le_refl 1
        _ ≤ (xs.filter q).length := List.length_pos.mpr (List.ne_nil_of_mem this)
    cases i with
    | zero =>
      have hx : q x = true := hqi
      obtain ⟨j, rfl⟩ : ∃ j', j = j' + 1 := ⟨j - 1, by omega⟩
      have := one_of j (by simpa using hj) hqj
      simp only [List.filter_cons, hx]
      simpa using this
    | succ i =>
      cases j with
      | zero =>
        have hx : q x = true := hqj
        have := one_of i (by simpa using hi) hqi
        simp only [List.filter_cons, hx]
        simpa using this
      | succ j =>
        cases hx : q x with
        | true =>
          have := one_of i (by simpa using hi) hqi
          simp only [List.filter_cons, hx]
          simpa using this
        | false =>
          have := ih i j (by simpa using hi) (by simpa using hj)
            (by omega) hqi hqj
          simpa [List.filter_cons, hx] using this

/-- Projection of a player to the two fields the active-seat scan reads
(`p.chips > 0 && !p.disconnected`): invariance of this projection makes
`getNextActivePosition` invariant. -/
def actKey (p : Player) : Int × Bool := (p.chips, p.disconnected)

theorem rot_inj (n a m₁ m₂ : Nat) (h₁ : m₁ < n) (h₂ : m₂ < n)
    (h : (a + m₁) % n = (a + m₂) % n) : m₁ = m₂ := by
  have hmod : m₁ ≡ m₂ [MOD n] := Nat.ModEq.add_left_cancel' a h
  calc m₁ = m₁ % n := (Nat.mod_eq_of_lt h₁).symm
    _ = m₂ % n := hmod
    _ = m₂ := Nat.mod_eq_of_lt h₂

theorem rot_hit (n pos x : Nat) (hpos : pos < n) (hx : x < n) :
    (pos + (x + n - pos) % n) % n = x := by
  rcases le_or_lt pos x with h | h
  · have e1 : (x + n - pos) % n = x - pos := by
      rw [show x + n - pos = (x - pos) + n from by omega, Nat.add_mod_right,
        Nat.mod_eq_of_lt (by omega)]
    rw [e1, show pos + (x - pos) = x from by omega, Nat.mod_eq_of_lt hx]
  · have e1 : (x + n - pos) % n = x + n - pos := Nat.mod_eq_of_lt (by omega)
    rw [e1, show pos + (x + n - pos) = x + n from by omega, Nat.add_mod_right,
      Nat.mod_eq_of_lt hx]

theorem scanActive_spec (t : Table) :
    ∀ (k fuel pos : Nat), pos < t.players.length → k < fuel →
      isActiveP (t.players.getD ((pos + k) % t.players.length) noPlayer) = true →
      (∀ m, m < k →
        isActiveP (t.players.getD ((pos + m) % t.players.length) noPlayer) = false) →
      t.scanActive fuel pos = (((pos + k) % t.players.length : Nat) : Int) := by
  intro k
  induction k with
  | zero =>
    intro fuel pos hpos hfuel hact _
    obtain ⟨f, rfl⟩ : ∃ f, fuel = f + 1 := ⟨fuel - 1, by omega⟩
    have hp : (pos + 0) % t.players.length = pos := by
      rw [Nat.add_zero, Nat.mod_eq_of_lt hpos]
    rw [hp] at hact ⊢
    rw [Table.scanActive, get?_eq_some_getD t.players pos noPlayer hpos]
    show (if isActiveP (t.players.getD pos noPlayer) = true then ((pos : Nat) : Int)
      else t.scanActive f ((pos + 1) % t.players.length)) = ((pos : Nat) : Int)
    rw [hact, if_pos rfl]
  | succ k ih =>
    intro fuel pos hpos hfuel hact hmiss
    obtain ⟨f, rfl⟩ : ∃ f, fuel = f + 1 := ⟨fuel - 1, by omega⟩
    have h0 : isActiveP (t.players.getD pos noPlayer) = false := by
      have := hmiss 0 (by omega)
      rwa [Nat.add_zero, Nat.mod_eq_of_lt hpos] at this
    rw [Table.scanActive, get?_eq_some_getD t.players pos noPlayer hpos]
    show (if isActiveP (t.players.getD pos noPlayer) = true then ((pos : Nat) : Int)
      else t.scanActive f ((pos + 1) % t.players.length)) = _
    rw [h0]
    simp only [Bool.false_eq_true, if_false]
    have hn : 0 < t.players.length := by omega
    have hshift : ∀ m, ((pos + 1) % t.players.length + m) % t.players.length
        = (pos + (m + 1)) % t.players.length := by
      intro m
      rw [Nat.mod_add_mod]
      congr 1
      omega
    have hrec := ih f ((pos + 1) % t.players.length) (Nat.mod_lt _ hn) (by omega)
      (by rw [hshift k]; exact hact)
      (by
        intro m hm
        rw [hshift m]
        exact hmiss (m + 1) (by omega))
    rw [hrec, hshift k]

theorem map_length_eq {α β : Type} {f : α → β} {l₁ l₂ : List α}
    (h : l₁.map f = l₂.map f) : l₁.length = l₂.length := by
  have := congrArg List.length h
  simpa using this

theorem actKey_getD (l₁ l₂ : List Player) (h : l₁.map actKey = l₂.map actKey)
    (k : Nat) : actKey (l₁.getD k noPlayer) = actKey (l₂.getD k noPlayer) := by
  have hlen : l₁.length = l₂.length := map_length_eq h
  by_cases hk : k < l₁.length
  · rw [← getD_map_of_lt actKey l₁ k (actKey noPlayer) noPlayer hk,
      ← getD_map_of_lt actKey l₂ k (actKey noPlayer) noPlayer (by omega), h]
  · rw [List.getD_eq_getElem?_getD, List.getD_eq_getElem?_getD,
      List.getElem?_eq_none (by omega), List.getElem?_eq_none (by omega)]

theorem isActiveP_actKey (p q : Player) (h : actKey p = actKey q) :
    isActiveP p = isActiveP q := by
  have h1 : p.chips = q.chips := congrArg Prod.fst h
  have h2 : p.disconnected = q.disconnected := congrArg Prod.snd h
  rw [isActiveP, isActiveP, h1, h2]

theorem scanActive_congr (t₁ t₂ : Table)
    (h : t₁.players.map actKey = t₂.players.map actKey) :
    ∀ fuel pos, t₁.scanActive fuel pos = t₂.scanActive fuel pos := by
  have hlen : t₁.players.length = t₂.players.length := map_length_eq h
  intro fuel
  induction fuel with
  | zero =>
    intro pos
    rfl
  | succ f ih =>
    intro pos
    have hact : isActiveP (t₁.players.getD pos noPlayer)
        = isActiveP (t₂.players.getD pos noPlayer) :=
      isActiveP_actKey _ _ (actKey_getD _ _ h pos)
    rw [Table.scanActive, Table.scanActive]
    by_cases hp : pos < t₁.players.length
    · rw [get?_eq_some_getD t₁.players pos noPlayer hp,
        get?_eq_some_getD t₂.players pos noPlayer (by omega)]
      show (if isActiveP (t₁.players.getD pos noPlayer) = true then ((pos : Nat) : Int)
          else t₁.scanActive f ((pos + 1) % t₁.players.length)) =
        (if isActiveP (t₂.players.getD pos noPlayer) = true then ((pos : Nat) : Int)
          else t₂.scanActive f ((pos + 1) % t₂.players.length))
      rw [hact]
      cases ha : isActiveP (t₂.players.getD pos noPlayer) with
      | false =>
        simp only [Bool.false_eq_true, if_false]
        rw [hlen]
        exact ih _
      | true => simp only [if_true]
    · have hnone₁ : t₁.players.get? pos = none := List.get?_len_le (by omega)
      have hnone₂ : t₂.players.get? pos = none := List.get?_len_le (by omega)
      rw [hnone₁, hnone₂, hlen]
      exact ih _

theorem activeLen_congr (t₁ t₂ : Table)
    (h : t₁.players.map actKey = t₂.players.map actKey) :
    t₁.activePlayers.length = t₂.activePlayers.length := by
  have key : ∀ l : List Player, (l.filter isActiveP).length =
      ((l.map actKey).filter (fun c => decide (0 < c.1) && !c.2)).length := by
    intro l
    rw [List.filter_map]
    rw [List.length_map]
    rfl
  rw [Table.activePlayers, Table.activePlayers, key, key, h]

theorem nextActive_congr (t₁ t₂ : Table)
    (h : t₁.players.map actKey = t₂.players.map actKey) (fromPos : Int) :
    t₁.getNextActivePosition fromPos = t₂.getNextActivePosition fromPos := by
  have hlen : t₁.players.length = t₂.players.length := map_length_eq h
  rw [Table.getNextActivePosition, Table.getNextActivePosition,
    activeLen_congr t₁ t₂ h, hlen, scanActive_congr t₁ t₂ h]

theorem filter_range_zero (n : Nat) (q : Nat → Bool)
    (h : ∀ k, k < n → q k = false) : ((List.range n).filter q).length = 0 := by
  induction n with
  | zero => rfl
  | succ m ih =>
    rw [List.range_succ, List.filter_append]
    simp only [List.length_append]
    rw [ih (fun k hk => h k (by omega))]
    simp [h m (by omega)]

theorem filter_range_one (n i : Nat) (hi : i < n) (q : Nat → Bool)
    (h : ∀ k, k < n → (q k = true ↔ k = i)) :
    ((List.range n).filter q).length = 1 := by
  induction n with
  | zero => omega
  | succ m ih =>
    rw [List.range_succ, List.filter_append]
    simp only [List.length_append]
    by_cases him : i = m
    · rw [filter_range_zero m q (fun k hk => by
        cases hq : q k with
        | false => rfl
        | true => exact absurd ((h k (by omega)).mp hq) (by omega))]
      have : q m = true := (h m (by omega)).mpr him.symm
      simp [this]
    · rw [ih (by omega) (fun k hk => h k (by omega))]
      have : q m = false := by
        cases hq : q m with
        | false => rfl
        | true => exact absurd ((h m (by omega)).mp hq) (by omega)
      simp [this]

theorem filter_range_two (n i j : Nat) (hi : i < n) (hj : j < n) (hij : i ≠ j)
    (q : Nat → Bool) (h : ∀ k, k < n → (q k = true ↔ (k = i ∨ k = j))) :
    ((List.range n).filter q).length = 2 := by
  induction n with
  | zero => omega
  | succ m ih =>
    rw [List.range_succ, List.filter_append]
    simp only [List.length_append]
    by_cases him : i = m
    · rw [filter_range_one m j (by omega) q (fun k hk => by
        constructor
        · intro hq
          rcases (h k (by omega)).mp hq with h' | h'
          · omega
          · exact h'
        · intro hq
          exact (h k (by omega)).mpr (Or.inr hq))]
      have : q m = true := (h m (by omega)).mpr (Or.inl him.symm)
      simp [this]
    · by_cases hjm : j = m
      · rw [filter_range_one m i (by omega) q (fun k hk => by
          constructor
          · intro hq
            rcases (h k (by omega)).mp hq with h' | h'
            · exact h'
            · omega
          · intro hq
            exact (h k (by omega)).mpr (Or.inl hq))]
        have : q m = true := (h m (by omega)).mpr (Or.inr hjm.symm)
        simp [this]
      · rw [ih (by omega) (by omega) (fun k hk => h k (by omega))]
        have : q m = false := by
          cases hq : q m with
          | false => rfl
          | true =>
            rcases (h m (by omega)).mp hq with h' | h' <;> omega
        simp [this]

theorem length_filter_range_getD {α : Type} (q : α → Bool) (l : List α) (d : α) :
    (l.filter q).length =
    ((List.range l.length).filter (fun k => q (l.getD k d))).length := by
  induction l with
  | nil => rfl
  | cons x xs ih =>
    rw [List.filter_cons, List.length_cons, List.range_succ_eq_map,
      List.filter_cons, List.filter_map]
    have hcomp : ((fun k => q ((x :: xs).getD k d)) ∘ Nat.succ)
        = (fun k => q (xs.getD k d)) := rfl
    rw [hcomp]
    cases hq : q x with
    | false =>
      simp only [List.getD_cons_zero, hq, Bool.false_eq_true, if_false]
      rw [ih, List.length_map]
    | true =>
      simp only [List.getD_cons_zero, hq, if_true, List.length_cons]
      rw [ih, List.length_map]

/-- Characterization of a heads-up table: the only active seats are `i`
and `j`. -/
def twoActive (t : Table) (i j : Nat) : Prop :=
  ∀ l, l < t.players.length →
    (isActiveP (t.players.getD l noPlayer) = true ↔ (l = i ∨ l = j))

theorem twoActive_len_ne_zero (t : Table) (i j : Nat)
    (hi : i < t.players.length) (hchar : twoActive t i j) :
    t.activePlayers.length ≠ 0 := by
  have hmem : t.players.getD i noPlayer ∈ t.players.filter isActiveP :=
    List.mem_filter.mpr ⟨getD_mem _ _ _ hi, (hchar i hi).mpr (Or.inl rfl)⟩
  rw [Table.activePlayers]
  intro hzero
  rw [List.length_eq_zero] at hzero
  rw [hzero] at hmem
  simp at hmem

/-- On a heads-up table, the next active seat after `i` is `j`. -/
theorem nextActive_pair_aux (t : Table) (i j : Nat)
    (hi : i < t.players.length) (hj : j < t.players.length) (hij : i ≠ j)
    (hchar : twoActive t i j) :
    t.getNextActivePosition (i : Int) = (j : Int) := by
  set n := t.players.length with hn
  have hnpos : 0 < n := by omega
  rw [Table.getNextActivePosition,
    if_neg (twoActive_len_ne_zero t i j hi hchar)]
  have hentry : (((i : Int) + 1) % (n : Int)).toNat = (i + 1) % n := by
    rw [show ((i : Int) + 1) = ((i + 1 : Nat) : Int) from by push_cast; ring,
      Int.ofNat_mod_ofNat, Int.toNat_ofNat]
  rw [hentry]
  set pos₀ : Nat := (i + 1) % n with hpos₀def
  have hpos₀ : pos₀ < n := Nat.mod_lt _ hnpos
  set k : Nat := (j + n - pos₀) % n with hkdef
  have hk : k < n := Nat.mod_lt _ hnpos
  have hreach : (pos₀ + k) % n = j := rot_hit n pos₀ j hpos₀ hj
  have hx_rot : (pos₀ + (n - 1)) % n = i := by
    rw [hpos₀def, Nat.mod_add_mod, show i + 1 + (n - 1) = i + n from by omega,
      Nat.add_mod_right, Nat.mod_eq_of_lt hi]
  have hmiss : ∀ m, m < k →
      isActiveP (t.players.getD ((pos₀ + m) % n) noPlayer) = false := by
    intro m hm
    have hqn : (pos₀ + m) % n < n := Nat.mod_lt _ hnpos
    have hqi : (pos₀ + m) % n ≠ i := by
      intro hqe
      have : m = n - 1 := rot_inj n pos₀ m (n - 1) (by omega) (by omega)
        (by rw [hqe, hx_rot])
      omega
    have hqj : (pos₀ + m) % n ≠ j := by
      intro hqe
      have : m = k := rot_inj n pos₀ m k (by omega) hk (by rw [hqe, hreach])
      omega
    cases hact : isActiveP (t.players.getD ((pos₀ + m) % n) noPlayer) with
    | false => rfl
    | true =>
      rcases (hchar _ hqn).mp hact with h' | h' <;> [exact absurd h' hqi;
        exact absurd h' hqj]
  have := scanActive_spec t k n pos₀ hpos₀ hk
    (by rw [hreach]; exact (hchar j hj).mpr (Or.inr rfl)) hmiss
  rw [this, hreach]

/-- On a heads-up table, the next active seat from anywhere is `i` or `j`. -/
theorem nextActive_mem_pair (t : Table) (i j : Nat)
    (hi : i < t.players.length) (hj : j < t.players.length) (hij : i ≠ j)
    (hchar : twoActive t i j) (fromPos : Int) :
    t.getNextActivePosition fromPos = (i : Int) ∨
    t.getNextActivePosition fromPos = (j : Int) := by
  set n := t.players.length with hn
  have hnpos : 0 < n := by omega
  rw [Table.getNextActivePosition,
    if_neg (twoActive_len_ne_zero t i j hi hchar)]
  set pos₀ : Nat := ((fromPos + 1) % (n : Int)).toNat with hpos₀def
  have hpos₀ : pos₀ < n := by
    have h1 : 0 ≤ (fromPos + 1) % (n : Int) :=
      Int.emod_nonneg _ (by exact_mod_cast hnpos.ne')
    have h2 : (fromPos + 1) % (n : Int) < (n : Int) :=
      Int.emod_lt_of_pos _ (by exact_mod_cast hnpos)
    rw [hpos₀def]
    exact (Int.toNat_lt h1).mpr h2
  set ki : Nat := (i + n - pos₀) % n with hkidef
  set kj : Nat := (j + n - pos₀) % n with hkjdef
  have hki : ki < n := Nat.mod_lt _ hnpos
  have hkj : kj < n := Nat.mod_lt _ hnpos
  have hri : (pos₀ + ki) % n = i := rot_hit n pos₀ i hpos₀ hi
  have hrj : (pos₀ + kj) % n = j := rot_hit n pos₀ j hpos₀ hj
  rcases le_total ki kj with hle | hle
  · left
    have hmiss : ∀ m, m < ki →
        isActiveP (t.players.getD ((pos₀ + m) % n) noPlayer) = false := by
      intro m hm
      have hqn : (pos₀ + m) % n < n := Nat.mod_lt _ hnpos
      cases hact : isActiveP (t.players.getD ((pos₀ + m) % n) noPlayer) with
      | false => rfl
      | true =>
        rcases (hchar _ hqn).mp hact with h' | h'
        · have : m = ki := rot_inj n pos₀ m ki (by omega) hki (by rw [h', hri])
          omega
        · have : m = kj := rot_inj n pos₀ m kj (by omega) hkj (by rw [h', hrj])
          omega
    have := scanActive_spec t ki n pos₀ hpos₀ hki
      (by rw [hri]; exact (hchar i hi).mpr (Or.inl rfl)) hmiss
    rw [this, hri]
  · right
    have hmiss : ∀ m, m < kj →
        isActiveP (t.players.getD ((pos₀ + m) % n) noPlayer) = false := by
      intro m hm
      have hqn : (pos₀ + m) % n < n := Nat.mod_lt _ hnpos
      cases hact : isActiveP (t.players.getD ((pos₀ + m) % n) noPlayer) with
      | false => rfl
      | true =>
        rcases (hchar _ hqn).mp hact with h' | h'
        · have : m = ki := rot_inj n pos₀ m ki (by omega) hki (by rw [h', hri])
          omega
        · have : m = kj := rot_inj n pos₀ m kj (by omega) hkj (by rw [h', hrj])
          omega
    have := scanActive_spec t kj n pos₀ hpos₀ hkj
      (by rw [hrj]; exact (hchar j hj).mpr (Or.inr rfl)) hmiss
    rw [this, hrj]

theorem twoActive_congr (t₁ t₂ : Table)
    (h : t₁.players.map actKey = t₂.players.map actKey) (i j : Nat)
    (hc : twoActive t₂ i j) : twoActive t₁ i j := by
  intro l hl
  rw [isActiveP_actKey _ _ (actKey_getD _ _ h l)]
  exact hc l (by rw [← map_length_eq h]; exact hl)

theorem twoActive_swap (t : Table) (i j : Nat) (h : twoActive t i j) :
    twoActive t j i := by
  intro l hl
  rw [h l hl]
  exact or_comm

theorem dealHole_actKey (ps : List Player) : ∀ d : List Card,
    (Table.dealHole ps d).1.map actKey = ps.map actKey := by
  induction ps with
  | nil =>
    intro d
    rfl
  | cons p ps ih =>
    intro d
    cases hact : isActiveP p with
    | true =>
      simp only [Table.dealHole, hact, if_true, List.map_cons]
      exact congrArg₂ List.cons rfl (ih _)
    | false =>
      simp only [Table.dealHole, hact, Bool.false_eq_true, if_false, List.map_cons]
      exact congrArg₂ List.cons rfl (ih _)

theorem resetForHand_actKey (t : Table) (rands : List Nat) :
    (t.resetForHand rands).players.map actKey = t.players.map actKey := by
  simp only [Table.resetForHand]
  rw [List.map_map]
  rfl

theorem withDealtCards_actKey (t : Table) :
    t.withDealtCards.players.map actKey = t.players.map actKey := by
  simp only [Table.withDealtCards]
  exact dealHole_actKey t.players t.deck

theorem streetReset_actKey (t : Table) :
    t.streetReset.players.map actKey = t.players.map actKey := by
  simp only [Table.streetReset]
  rw [List.map_map]
  rfl

theorem streetReset_getD (t : Table) (k : Nat) (hk : k < t.players.length) :
    t.streetReset.players.getD k noPlayer =
      { t.players.getD k noPlayer with bet := 0, hasActedThisRound := false } := by
  simp only [Table.streetReset]
  exact getD_map_of_lt _ t.players k noPlayer noPlayer hk

theorem getD_set_self {α : Type} (l : List α) (i : Nat) (a d : α)
    (hi : i < l.length) : (l.set i a).getD i d = a := by
  simp [List.getD_eq_getElem?_getD, List.getElem?_set_self (by simpa using hi)]

theorem getD_set_ne {α : Type} (l : List α) (i j : Nat) (a d : α)
    (hji : j ≠ i) : (l.set i a).getD j d = l.getD j d := by
  simp [List.getD_eq_getElem?_getD, List.getElem?_set_ne (by omega : i ≠ j)]

theorem postBlind_bet_self (t : Table) (pos : Int) (blind : Int)
    (h : pos.toNat < t.players.length) :
    ((t.postBlind pos blind).players.getD pos.toNat noPlayer).bet =
      min blind (t.players.getD pos.toNat noPlayer).chips := by
  simp only [Table.postBlind]
  rw [getD_set_self _ _ _ _ h]

theorem postBlind_getD_ne (t : Table) (pos : Int) (blind : Int) (k : Nat)
    (hk : k ≠ pos.toNat) :
    (t.postBlind pos blind).players.getD k noPlayer =
      t.players.getD k noPlayer := by
  simp only [Table.postBlind]
  exact getD_set_ne _ _ _ _ _ hk

theorem postBlind_length (t : Table) (pos : Int) (blind : Int) :
    (t.postBlind pos blind).players.length = t.players.length := by
  simp only [Table.postBlind, List.length_set]

theorem dealNextStreet_players (t : Table) :
    t.dealNextStreet.players = t.players := by
  cases h : t.gamePhase <;>
    simp [Table.dealNextStreet, h, Table.broadcastAction]

theorem dealNextStreet_dealer (t : Table) :
    t.dealNextStreet.dealerPosition = t.dealerPosition := by
  cases h : t.gamePhase <;>
    simp [Table.dealNextStreet, h, Table.broadcastAction]

theorem dealNextStreet_not_showdown (t : Table)
    (h : t.gamePhase = Phase.preflop ∨ t.gamePhase = Phase.flop ∨
      t.gamePhase = Phase.turn) :
    (t.dealNextStreet.gamePhase == Phase.showdown) = false := by
  rcases h with h | h | h <;>
    simp [Table.dealNextStreet, h, Table.broadcastAction]

theorem skipLoop_qual (t : Table) (fuel : Nat) (jj : Nat)
    (hjj : jj < t.players.length)
    (hq : skipQual (t.players.getD jj noPlayer) = true) :
    t.skipLoop (fuel + 1) ((jj : Nat) : Int) = ((jj : Nat) : Int) := by
  rw [Table.skipLoop]
  have h1 : (((jj : Nat) : Int) == -1) = false := by
    rw [beq_eq_false_iff_ne]
    omega
  rw [h1]
  simp only [Bool.false_eq_true, if_false]
  rw [Int.toNat_ofNat, get?_eq_some_getD t.players jj noPlayer hjj]
  show (if skipQual (t.players.getD jj noPlayer) = true then ((jj : Nat) : Int)
    else t.skipLoop fuel (t.getNextActivePosition ((jj : Nat) : Int))) = _
  rw [hq, if_pos rfl]

/-- The table after the reset, dealer move and card dealing of a heads-up
`startNewHand` (names the intermediate state the source calls `this` right
before computing blind positions). -/
def headsUpT3 (t : Table) (rands : List Nat) : Table :=
  Table.withDealtCards
    { t.resetForHand rands with
      dealerPosition := (t.resetForHand rands).getNextActivePosition
        (t.resetForHand rands).dealerPosition }

/-- The big-blind position of a heads-up hand: next active seat after the
dealer (who posts the small blind). -/
def headsUpBB (t : Table) (rands : List Nat) : Int :=
  (headsUpT3 t rands).getNextActivePosition (headsUpT3 t rands).dealerPosition

/-- The heads-up table after the small blind is posted by the dealer. -/
def headsUpT4 (t : Table) (rands : List Nat) : Table :=
  (headsUpT3 t rands).postBlind (headsUpT3 t rands).dealerPosition
    (headsUpT3 t rands).smallBlind

/-- Projections of a heads-up `startNewHand` through its branch structure:
with exactly two active seats, the dealer keeps the button, posts the small
blind and acts first, and the seat found after the dealer posts the big
blind which becomes `currentBet`. -/
theorem startNewHand_headsUp_fields (t : Table) (rands : List Nat)
    (h2 : t.activePlayers.length = 2) :
    (t.startNewHand rands).currentTurnPosition = (headsUpT3 t rands).dealerPosition ∧
    (t.startNewHand rands).dealerPosition = (headsUpT3 t rands).dealerPosition ∧
    (t.startNewHand rands).currentBet =
      min t.bigBlind ((headsUpT4 t rands).players.getD
        (headsUpBB t rands).toNat noPlayer).chips ∧
    (t.startNewHand rands).players =
      ((headsUpT4 t rands).postBlind (headsUpBB t rands) t.bigBlind).players := by
  have hcond1 : ¬(t.activePlayers.length < 2) := by omega
  have hcond2 : (t.activePlayers.length == 2) = true := by
    rw [h2]
    rfl
  simp only [Table.startNewHand, hcond2, if_neg hcond1, if_true]
  exact ⟨rfl, rfl, rfl, rfl⟩

/-- The total chip count of a seat list, the quantity the chip-conservation
claim tracks alongside the pot. -/
def chipSum (l : List Player) : Int := (l.map (fun p => p.chips)).sum

theorem sum_set_int (xs : List Int) : ∀ (k : Nat) (x : Int), k < xs.length →
    (xs.set k x).sum = xs.sum - xs.getD k 0 + x := by
  induction xs with
  | nil =>
    intro k x hk
    simp at hk
  | cons a as ih =>
    intro k x hk
    cases k with
    | zero =>
      simp only [List.set, List.sum_cons, List.getD_cons_zero]
      ring
    | succ m =>
      simp only [List.set, List.sum_cons, List.getD_cons_succ]
      rw [ih m x (by simpa using hk)]
      ring

theorem chipSum_set (l : List Player) (k : Nat) (p : Player)
    (hk : k < l.length) :
    chipSum (l.set k p) = chipSum l - (l.getD k noPlayer).chips + p.chips := by
  rw [chipSum, List.map_set, sum_set_int _ k p.chips (by simpa using hk),
    getD_map_of_lt _ l k 0 noPlayer hk]
  rfl

theorem chipSum_map_pres (f : Player → Player) (l : List Player)
    (hf : ∀ p, (f p).chips = p.chips) : chipSum (l.map f) = chipSum l := by
  rw [chipSum, chipSum, List.map_map]
  congr 1
  exact List.map_congr_left (fun p _ => hf p)

theorem chipSum_congr (l₁ l₂ : List Player)
    (h : l₁.map actKey = l₂.map actKey) : chipSum l₁ = chipSum l₂ := by
  have h1 : l₁.map (fun p => p.chips) = (l₁.map actKey).map Prod.fst := by
    rw [List.map_map]
    rfl
  have h2 : l₂.map (fun p => p.chips) = (l₂.map actKey).map Prod.fst := by
    rw [List.map_map]
    rfl
  rw [chipSum, chipSum, h1, h2, h]

theorem chipSum_cons (a : Player) (l : List Player) :
    chipSum (a :: l) = a.chips + chipSum l := rfl

theorem chipSum_filter_nonneg (l : List Player)
    (h : ∀ p ∈ l, 0 ≤ p.chips) :
    chipSum (l.filter (fun p : Player => decide (0 < p.chips))) = chipSum l := by
  induction l with
  | nil => rfl
  | cons a as ih =>
    have ha := h a (by simp)
    have has : ∀ p ∈ as, 0 ≤ p.chips := fun p hp => h p (by simp [hp])
    rw [List.filter_cons]
    cases hc : decide (0 < a.chips) with
    | true =>
      simp only [if_true]
      rw [chipSum_cons, chipSum_cons, ih has]
    | false =>
      simp only [Bool.false_eq_true, if_false]
      rw [ih has]
      have hz : a.chips = 0 := by
        simp only [decide_eq_false_iff_not, not_lt] at hc
        omega
      rw [chipSum_cons, hz, zero_add]

/-- Posting a blind moves chips between a stack and the pot without creating
or destroying any (an out-of-range seat reads zero chips, so a nonnegative
blind posts zero). -/
theorem postBlind_conserve (t : Table) (pos : Int) (blind : Int)
    (h : 0 ≤ blind ∨ pos.toNat < t.players.length) :
    chipSum (t.postBlind pos blind).players + (t.postBlind pos blind).pot =
      chipSum t.players + t.pot := by
  simp only [Table.postBlind]
  by_cases hk : pos.toNat < t.players.length
  · rw [chipSum_set _ _ _ hk]
    show chipSum t.players - (t.players.getD pos.toNat noPlayer).chips +
        ((t.players.getD pos.toNat noPlayer).chips -
          min blind (t.players.getD pos.toNat noPlayer).chips) +
      (t.pot + min blind (t.players.getD pos.toNat noPlayer).chips) =
      chipSum t.players + t.pot
    ring
  · have hblind : 0 ≤ blind := by
      rcases h with h | h
      · exact h
      · exact absurd h hk
    have hset : t.players.set pos.toNat
        { t.players.getD pos.toNat noPlayer with
          chips := (t.players.getD pos.toNat noPlayer).chips -
            min blind (t.players.getD pos.toNat noPlayer).chips,
          bet := min blind (t.players.getD pos.toNat noPlayer).chips,
          totalBetThisRound := min blind (t.players.getD pos.toNat noPlayer).chips,
          isAllIn := if ((t.players.getD pos.toNat noPlayer).chips -
              min blind (t.players.getD pos.toNat noPlayer).chips == 0) = true
            then true else (t.players.getD pos.toNat noPlayer).isAllIn } =
        t.players := List.set_eq_of_length_le (by omega)
    have hd : t.players.getD pos.toNat noPlayer = noPlayer := by
      rw [List.getD_eq_getElem?_getD, List.getElem?_eq_none (by omega)]
      rfl
    rw [hset, hd]
    show chipSum t.players + (t.pot + min blind noPlayer.chips) =
      chipSum t.players + t.pot
    rw [show noPlayer.chips = 0 from rfl, min_eq_right hblind, add_zero]

/-- The small-blind position a (non-early-ended) `startNewHand` uses. -/
def snhSbPos (t : Table) (rands : List Nat) : Int :=
  if (t.activePlayers.length == 2) = true then (headsUpT3 t rands).dealerPosition
  else (headsUpT3 t rands).getNextActivePosition (headsUpT3 t rands).dealerPosition

/-- The big-blind position a (non-early-ended) `startNewHand` uses. -/
def snhBbPos (t : Table) (rands : List Nat) : Int :=
  (headsUpT3 t rands).getNextActivePosition (snhSbPos t rands)

/-- The table of a (non-early-ended) `startNewHand` after the small blind. -/
def snhT4 (t : Table) (rands : List Nat) : Table :=
  (headsUpT3 t rands).postBlind (snhSbPos t rands) (headsUpT3 t rands).smallBlind

/-- Seats and pot of a started hand are exactly those after both blinds are
posted on the prepared (reset, dealt) table. -/
theorem startNewHand_money_fields (t : Table) (rands : List Nat)
    (h2 : ¬(t.activePlayers.length < 2)) :
    (t.startNewHand rands).players =
      ((snhT4 t rands).postBlind (snhBbPos t rands) t.bigBlind).players ∧
    (t.startNewHand rands).pot =
      ((snhT4 t rands).postBlind (snhBbPos t rands) t.bigBlind).pot := by
  simp only [Table.startNewHand, if_neg h2]
  exact ⟨rfl, rfl⟩

/-- C4 part A: starting a hand collects exactly the two blinds into the pot —
the seats' chips plus the new pot equal the chips before the hand (any pot
left over from the previous award was already paid out and is discarded). -/
theorem startNewHand_conserve (t : Table) (rands : List Nat)
    (hsb : 0 ≤ t.smallBlind) (hbb : 0 ≤ t.bigBlind)
    (h2 : ¬(t.activePlayers.length < 2)) :
    chipSum (t.startNewHand rands).players + (t.startNewHand rands).pot =
      chipSum t.players := by
  obtain ⟨e1, e2⟩ := startNewHand_money_fields t rands h2
  rw [e1, e2]
  rw [postBlind_conserve (snhT4 t rands) (snhBbPos t rands) t.bigBlind
    (Or.inl hbb)]
  rw [show snhT4 t rands = (headsUpT3 t rands).postBlind (snhSbPos t rands)
    t.smallBlind from rfl]
  rw [postBlind_conserve (headsUpT3 t rands) (snhSbPos t rands) t.smallBlind
    (Or.inl hsb)]
  rw [show (headsUpT3 t rands).pot = 0 from rfl, add_zero]
  exact chipSum_congr _ _ (by
    simp only [headsUpT3]
    rw [withDealtCards_actKey]
    exact resetForHand_actKey t rands)

/-- The conservation relation the claim states for one engine transition
from `t` to `t'`: the chips plus pot are unchanged, or a pot award to `k`
tied winners has folded the pot back into the stacks short of exactly
`pot mod k ≤ k - 1` chips (the final pot field keeps the awarded amount). -/
def moneyConserved (t t' : Table) : Prop :=
  (chipSum t'.players + t'.pot = chipSum t.players + t.pot) ∨
  (∃ k : Nat, 1 ≤ k ∧
    chipSum t'.players + Int.fmod t'.pot (k : Int) = chipSum t.players + t.pot ∧
    0 ≤ Int.fmod t'.pot (k : Int) ∧ Int.fmod t'.pot (k : Int) ≤ (k : Int) - 1)

theorem moneyConserved_congr (t u t' : Table)
    (hc : chipSum u.players = chipSum t.players) (hp : u.pot = t.pot)
    (h : moneyConserved u t') : moneyConserved t t' := by
  rcases h with h | ⟨k, hk, h1, h2, h3⟩
  · left
    rw [h, hc, hp]
  · right
    exact ⟨k, hk, by rw [h1, hc, hp], h2, h3⟩

theorem nonneg_getD (l : List Player) (k : Nat) (h : ∀ p ∈ l, 0 ≤ p.chips) :
    0 ≤ (l.getD k noPlayer).chips := by
  by_cases hk : k < l.length
  · exact h _ (getD_mem l k noPlayer hk)
  · rw [List.getD_eq_getElem?_getD, List.getElem?_eq_none (by omega)]
    exact le_refl 0

/-- The per-seat elimination marking of `scheduleNextHand`
(src/server.js:601-607). -/
def elimMark (p : Player) : Player :=
  if p.chips == 0 && !p.eliminated then { p with eliminated := true } else p

/-- The blind-escalation stage of `scheduleNextHand`. -/
def schedT1 (t : Table) : Table :=
  if t.blindIncreasePerElim && t.players.any (fun p => p.chips == 0 && !p.eliminated) then
    ({ t with
      players := t.players.map elimMark,
      smallBlind := t.smallBlind + t.blindIncreaseAmount,
      bigBlind := (t.smallBlind + t.blindIncreaseAmount) * 2
     }).broadcastAction "Blinds increased"
  else t

/-- The busted-seat removal stage of `scheduleNextHand`. -/
def schedT2 (t : Table) : Table :=
  { schedT1 t with
    players := (schedT1 t).players.filter (fun p : Player => decide (0 < p.chips)) }

/-- The end-of-tournament check of `scheduleNextHand`. -/
def schedTail (u : Table) : Table :=
  if u.activePlayers.length < 2 then
    (if u.activePlayers.length = 1 then
      ({ u with gamePhase := Phase.ended }).broadcastAction
        ((u.activePlayers.getD 0 noPlayer).username ++ " wins the tournament!")
    else { u with gamePhase := Phase.ended })
  else { u with gamePhase := Phase.waiting_next_hand }

theorem scheduleNextHand_eq (t : Table) :
    t.scheduleNextHand = schedTail (schedT2 t) := rfl

theorem schedTail_fields (u : Table) :
    (schedTail u).players = u.players ∧ (schedTail u).pot = u.pot := by
  simp only [schedTail, Table.broadcastAction]
  split_ifs <;> exact ⟨rfl, rfl⟩

/-- `scheduleNextHand` never creates or destroys chips: the seats it drops
hold exactly zero (given nonnegative stacks) and the pot is untouched. -/
theorem scheduleNextHand_money (t : Table) (h : ∀ p ∈ t.players, 0 ≤ p.chips) :
    chipSum t.scheduleNextHand.players = chipSum t.players ∧
    t.scheduleNextHand.pot = t.pot := by
  obtain ⟨e1, e2⟩ := schedTail_fields (schedT2 t)
  rw [scheduleNextHand_eq, e1, e2]
  have hf : ∀ p : Player, (elimMark p).chips = p.chips := by
    intro p
    rw [elimMark]
    split <;> rfl
  have h1n : ∀ p ∈ (schedT1 t).players, 0 ≤ p.chips := by
    simp only [schedT1]
    split_ifs with hc
    · intro p hp
      have hp' : p ∈ t.players.map elimMark := hp
      obtain ⟨q, hq, rfl⟩ := List.mem_map.mp hp'
      rw [hf q]
      exact h q hq
    · exact h
  have h1c : chipSum (schedT1 t).players = chipSum t.players := by
    simp only [schedT1]
    split_ifs with hc
    · exact chipSum_map_pres _ _ hf
    · rfl
  constructor
  · show chipSum ((schedT1 t).players.filter
      (fun p : Player => decide (0 < p.chips))) = chipSum t.players
    rw [chipSum_filter_nonneg _ h1n, h1c]
  · show (schedT1 t).pot = t.pot
    simp only [schedT1]
    split_ifs <;> rfl

/-- The one-seat chip top-up `addChipsAt` and `endHand` perform. -/
def chipAdd (l : List Player) (k : Nat) (amt : Int) : Player :=
  { l.getD k noPlayer with chips := (l.getD k noPlayer).chips + amt }

/-- `endHand` hands the whole pot to the given seat: total chips grow by
exactly the pot, which stays recorded until the next hand resets it. -/
theorem endHand_money (t : Table) (i : Nat) (hi : i < t.players.length)
    (h : ∀ p ∈ t.players, 0 ≤ p.chips) (hpot : 0 ≤ t.pot) :
    chipSum (t.endHand i).players = chipSum t.players + t.pot ∧
    (t.endHand i).pot = t.pot := by
  have hn : ∀ p ∈ t.players.set i (chipAdd t.players i t.pot), 0 ≤ p.chips := by
    intro p hp
    rcases List.mem_or_eq_of_mem_set hp with hp' | rfl
    · exact h p hp'
    · show 0 ≤ (t.players.getD i noPlayer).chips + t.pot
      have h0 : 0 ≤ (t.players.getD i noPlayer).chips := nonneg_getD t.players i h
      omega
  obtain ⟨m1, m2⟩ := scheduleNextHand_money
    { t with players := t.players.set i (chipAdd t.players i t.pot) } hn
  have hc2 : chipSum (t.players.set i (chipAdd t.players i t.pot)) =
      chipSum t.players + t.pot := by
    rw [chipSum_set _ _ _ hi]
    show chipSum t.players - (t.players.getD i noPlayer).chips +
      ((t.players.getD i noPlayer).chips + t.pot) = chipSum t.players + t.pot
    ring
  exact ⟨m1.trans hc2, m2⟩

theorem addChipsAt_length (idxs : List Nat) : ∀ (l : List Player) (amt : Int),
    (Table.addChipsAt l idxs amt).length = l.length := by
  induction idxs with
  | nil =>
    intro l amt
    rfl
  | cons k ks ih =>
    intro l amt
    show (Table.addChipsAt (l.set k (chipAdd l k amt)) ks amt).length = l.length
    rw [ih]
    exact List.length_set l k _

theorem addChipsAt_conserve (idxs : List Nat) : ∀ (l : List Player) (amt : Int),
    (∀ k ∈ idxs, k < l.length) →
    chipSum (Table.addChipsAt l idxs amt) = chipSum l + (idxs.length : Int) * amt := by
  induction idxs with
  | nil =>
    intro l amt _
    show chipSum l = chipSum l + ((0 : Nat) : Int) * amt
    simp
  | cons k ks ih =>
    intro l amt hk
    have hkl : k < l.length := hk k (by simp)
    show chipSum (Table.addChipsAt (l.set k (chipAdd l k amt)) ks amt) =
      chipSum l + ((k :: ks).length : Int) * amt
    rw [ih _ amt (fun j hj => by
      rw [List.length_set]
      exact hk j (by simp [hj]))]
    rw [chipSum_set _ _ _ hkl]
    show chipSum l - (l.getD k noPlayer).chips +
      ((l.getD k noPlayer).chips + amt) + (ks.length : Int) * amt =
      chipSum l + (((ks.length + 1 : Nat)) : Int) * amt
    push_cast
    ring

theorem addChipsAt_nonneg (idxs : List Nat) : ∀ (l : List Player) (amt : Int),
    0 ≤ amt → (∀ p ∈ l, 0 ≤ p.chips) →
    ∀ p ∈ Table.addChipsAt l idxs amt, 0 ≤ p.chips := by
  induction idxs with
  | nil =>
    intro l amt _ h p hp
    exact h p hp
  | cons k ks ih =>
    intro l amt hamt h p hp
    have hstep : ∀ q ∈ l.set k (chipAdd l k amt), 0 ≤ q.chips := by
      intro q hq
      rcases List.mem_or_eq_of_mem_set hq with hq' | rfl
      · exact h q hq'
      · show 0 ≤ (l.getD k noPlayer).chips + amt
        have h0 : 0 ≤ (l.getD k noPlayer).chips := nonneg_getD l k h
        omega
    exact ih _ amt hamt hstep p hp

theorem showdownIdxs_lt (t : Table) : ∀ k ∈ t.showdownIdxs, k < t.players.length := by
  intro k hk
  simp only [Table.showdownIdxs] at hk
  exact List.mem_range.mp (List.mem_filter.mp hk).1

theorem showdownWinners_lt (t : Table) :
    ∀ k ∈ t.showdownWinners, k < t.players.length := by
  intro k hk
  simp only [Table.showdownWinners] at hk
  exact showdownIdxs_lt t k (List.mem_filter.mp hk).1

theorem foldl_max_mem (l : List Nat) : ∀ a : Nat,
    l.foldl max a ∈ l ∨ l.foldl max a = a := by
  induction l with
  | nil =>
    intro a
    right
    rfl
  | cons x xs ih =>
    intro a
    rcases ih (max a x) with h | h
    · left
      exact List.mem_cons_of_mem _ h
    · rcases Nat.le_total a x with hax | hax
      · left
        rw [List.foldl_cons, h, max_eq_right hax]
        exact List.mem_cons_self _ _
      · right
        rw [List.foldl_cons, h, max_eq_left hax]

theorem foldl_max_zero_mem (l : List Nat) (h : l ≠ []) : l.foldl max 0 ∈ l := by
  obtain ⟨x, xs, rfl⟩ := List.exists_cons_of_ne_nil h
  rcases foldl_max_mem xs (max 0 x) with h' | h'
  · exact List.mem_cons_of_mem _ h'
  · rw [List.foldl_cons, h']
    rw [Nat.zero_max]
    exact List.mem_cons_self _ _

/-- The top showdown score is attained, so the tied-winner list is never
empty when anyone reaches showdown. -/
theorem showdownWinners_ne_nil (t : Table) (hne : t.showdownIdxs ≠ []) :
    1 ≤ t.showdownWinners.length := by
  have hmap : t.showdownIdxs.map t.handScore ≠ [] := by
    intro hc
    exact hne (List.map_eq_nil.mp hc)
  have hmem := foldl_max_zero_mem (t.showdownIdxs.map t.handScore) hmap
  obtain ⟨k0, hk0, hk0s⟩ := List.mem_map.mp hmem
  have hmemw : k0 ∈ t.showdownWinners := by
    simp only [Table.showdownWinners]
    refine List.mem_filter.mpr ⟨hk0, ?_⟩
    rw [beq_iff_eq]
    exact hk0s
  have := List.length_pos.mpr (List.ne_nil_of_mem hmemw)
  omega

/-- `determineWinner` either leaves the table unchanged (nobody reached
showdown), or awards the pot: whole to a single winner, or floor-split among
the `k ≥ 2` tied winners, destroying exactly `pot mod k` chips. -/
theorem determineWinner_money (t : Table)
    (h : ∀ p ∈ t.players, 0 ≤ p.chips) (hpot : 0 ≤ t.pot) :
    moneyConserved t t.determineWinner := by
  by_cases h0 : (t.showdownIdxs.length == 0) = true
  · left
    have hDW : t.determineWinner = t := by
      simp only [Table.determineWinner]
      rw [if_pos h0]
    rw [hDW]
  · by_cases h1 : (t.showdownIdxs.length == 1) = true
    · have hDW : t.determineWinner = t.endHand (t.showdownIdxs.getD 0 0) := by
        simp only [Table.determineWinner]
        rw [if_neg h0, if_pos h1]
      have hlen : 0 < t.showdownIdxs.length := by
        rw [beq_iff_eq] at h1
        omega
      have hidx : t.showdownIdxs.getD 0 0 < t.players.length :=
        showdownIdxs_lt t _ (getD_mem _ 0 0 hlen)
      obtain ⟨m1, m2⟩ := endHand_money t _ hidx h hpot
      right
      refine ⟨1, le_refl 1, ?_, ?_, ?_⟩
      · rw [hDW, Nat.cast_one, Int.fmod_one, add_zero, m1]
      · rw [hDW, Nat.cast_one, Int.fmod_one]
      · rw [hDW, Nat.cast_one, Int.fmod_one]
        omega
    · have hilen : 2 ≤ t.showdownIdxs.length := by
        simp only [beq_iff_eq] at h0 h1
        omega
      have hwne : 1 ≤ t.showdownWinners.length := showdownWinners_ne_nil t (by
        intro hc
        rw [hc] at hilen
        simp at hilen)
      by_cases hw1 : (t.showdownWinners.length == 1) = true
      · have hDW : t.determineWinner =
            (t.broadcastAction "wins the pot").endHand
              (t.showdownWinners.getD 0 0) := by
          simp only [Table.determineWinner]
          rw [if_neg h0, if_neg h1, if_pos hw1]
        have hidx : t.showdownWinners.getD 0 0 < t.players.length :=
          showdownWinners_lt t _ (getD_mem _ 0 0 (by omega))
        obtain ⟨m1, m2⟩ := endHand_money (t.broadcastAction "wins the pot") _
          hidx h hpot
        right
        refine ⟨1, le_refl 1, ?_, ?_, ?_⟩
        · rw [hDW, Nat.cast_one, Int.fmod_one, add_zero, m1]
          rfl
        · rw [hDW, Nat.cast_one, Int.fmod_one]
        · rw [hDW, Nat.cast_one, Int.fmod_one]
          omega
      · have hk2 : 2 ≤ t.showdownWinners.length := by
          simp only [beq_iff_eq] at hw1
          omega
        have hkpos : (0 : Int) < (t.showdownWinners.length : Int) := by
          exact_mod_cast (by omega : 0 < t.showdownWinners.length)
        have hDW : t.determineWinner =
            (({ t with
                players := Table.addChipsAt t.players t.showdownWinners
                  (Int.fdiv t.pot (t.showdownWinners.length : Int))
              }).broadcastAction "split pot").scheduleNextHand := by
          simp only [Table.determineWinner]
          rw [if_neg h0, if_neg h1, if_neg hw1]
        have hsplitnn : 0 ≤ Int.fdiv t.pot (t.showdownWinners.length : Int) :=
          Int.fdiv_nonneg hpot (by omega)
        have hcs : chipSum (Table.addChipsAt t.players t.showdownWinners
            (Int.fdiv t.pot (t.showdownWinners.length : Int))) =
            chipSum t.players + (t.showdownWinners.length : Int) *
              Int.fdiv t.pot (t.showdownWinners.length : Int) :=
          addChipsAt_conserve _ _ _ (showdownWinners_lt t)
        have hnn2 : ∀ p ∈ Table.addChipsAt t.players t.showdownWinners
            (Int.fdiv t.pot (t.showdownWinners.length : Int)), 0 ≤ p.chips :=
          addChipsAt_nonneg _ _ _ hsplitnn h
        obtain ⟨m1, m2⟩ := scheduleNextHand_money
          (({ t with
              players := Table.addChipsAt t.players t.showdownWinners
                (Int.fdiv t.pot (t.showdownWinners.length : Int))
            }).broadcastAction "split pot") hnn2
        right
        refine ⟨t.showdownWinners.length, by omega, ?_, ?_, ?_⟩
        · rw [hDW, m1, m2]
          show chipSum (Table.addChipsAt t.players t.showdownWinners
            (Int.fdiv t.pot (t.showdownWinners.length : Int))) +
            Int.fmod t.pot (t.showdownWinners.length : Int) =
            chipSum t.players + t.pot
          rw [hcs, add_assoc, Int.fdiv_add_fmod]
        · rw [hDW, m2]
          exact Int.fmod_nonneg' t.pot hkpos
        · rw [hDW, m2]
          have := Int.fmod_lt_of_pos t.pot hkpos
          show Int.fmod t.pot (t.showdownWinners.length : Int) ≤
            (t.showdownWinners.length : Int) - 1
          omega

/-- When more than one seat can still bet and the deal does not reach
showdown, `advanceToNextStreet` deals the next street and hands the turn to
the first openable seat after the dealer. -/
theorem advance_open_turn (t : Table)
    (hcan : ¬(((t.streetReset.playersInHand.filter (fun p => !p.folded)).filter
      (fun p => !p.isAllIn && decide (0 < p.chips))).length ≤ 1))
    (hshow : (t.streetReset.dealNextStreet.gamePhase == Phase.showdown) = false) :
    t.advanceToNextStreet =
      ({ t.streetReset.dealNextStreet with
        currentTurnPosition := t.streetReset.dealNextStreet.skipLoop
          t.streetReset.dealNextStreet.players.length
          (t.streetReset.dealNextStreet.getNextActivePosition
            t.streetReset.dealNextStreet.dealerPosition) }).startTurnTimer := by
  simp only [Table.advanceToNextStreet]
  rw [if_neg hcan, hshow]
  simp only [Bool.false_eq_true, if_false]

theorem dealNextStreet_pot (t : Table) : t.dealNextStreet.pot = t.pot := by
  cases h : t.gamePhase <;>
    simp [Table.dealNextStreet, h, Table.broadcastAction]

theorem dealUntilShowdown_money : ∀ (fuel : Nat) (t : Table),
    (Table.dealUntilShowdown t fuel).players = t.players ∧
    (Table.dealUntilShowdown t fuel).pot = t.pot := by
  intro fuel
  induction fuel with
  | zero =>
    intro t
    exact ⟨rfl, rfl⟩
  | succ f ih =>
    intro t
    have hstep : Table.dealUntilShowdown t (f + 1) =
        (if (t.gamePhase == Phase.showdown) = true then t
         else Table.dealUntilShowdown t.dealNextStreet f) := rfl
    rw [hstep]
    by_cases hs : (t.gamePhase == Phase.showdown) = true
    · rw [if_pos hs]
      exact ⟨rfl, rfl⟩
    · rw [if_neg hs]
      obtain ⟨i1, i2⟩ := ih t.dealNextStreet
      exact ⟨i1.trans (dealNextStreet_players t), i2.trans (dealNextStreet_pot t)⟩

theorem streetReset_chipSum (t : Table) :
    chipSum t.streetReset.players = chipSum t.players :=
  chipSum_map_pres _ _ (fun p => rfl)

theorem streetReset_nonneg (t : Table) (h : ∀ p ∈ t.players, 0 ≤ p.chips) :
    ∀ p ∈ t.streetReset.players, 0 ≤ p.chips := by
  intro p hp
  have hp' : p ∈ t.players.map
      (fun q : Player => { q with bet := 0, hasActedThisRound := false }) := hp
  obtain ⟨q, hq, rfl⟩ := List.mem_map.mp hp'
  exact h q hq

/-- `advanceToNextStreet` conserves money: it only zeroes street bets and
deals cards, except when it ends the hand, in which case it awards the pot. -/
theorem advanceToNextStreet_money (t : Table)
    (h : ∀ p ∈ t.players, 0 ≤ p.chips) (hpot : 0 ≤ t.pot) :
    moneyConserved t t.advanceToNextStreet := by
  by_cases hcan : (((t.streetReset.playersInHand.filter (fun p => !p.folded)).filter
      (fun p => !p.isAllIn && decide (0 < p.chips))).length ≤ 1)
  · have hADV : t.advanceToNextStreet =
        (Table.dealUntilShowdown t.streetReset 4).determineWinner := by
      simp only [Table.advanceToNextStreet]
      rw [if_pos hcan]
    obtain ⟨d1, d2⟩ := dealUntilShowdown_money 4 t.streetReset
    have hn' : ∀ p ∈ (Table.dealUntilShowdown t.streetReset 4).players,
        0 ≤ p.chips := by
      rw [d1]
      exact streetReset_nonneg t h
    have hpot' : 0 ≤ (Table.dealUntilShowdown t.streetReset 4).pot := by
      rw [d2]
      exact hpot
    have hM := determineWinner_money _ hn' hpot'
    rw [hADV]
    refine moneyConserved_congr t _ _ ?_ ?_ hM
    · rw [d1, streetReset_chipSum]
    · rw [d2]
      rfl
  · by_cases hshow : (t.streetReset.dealNextStreet.gamePhase == Phase.showdown) = true
    · have hADV : t.advanceToNextStreet =
          t.streetReset.dealNextStreet.determineWinner := by
        simp only [Table.advanceToNextStreet]
        rw [if_neg hcan, hshow, if_pos rfl]
      have hDp : t.streetReset.dealNextStreet.players = t.streetReset.players :=
        dealNextStreet_players _
      have hDpot : t.streetReset.dealNextStreet.pot = t.streetReset.pot :=
        dealNextStreet_pot _
      have hn' : ∀ p ∈ t.streetReset.dealNextStreet.players, 0 ≤ p.chips := by
        rw [hDp]
        exact streetReset_nonneg t h
      have hpot' : 0 ≤ t.streetReset.dealNextStreet.pot := by
        rw [hDpot]
        exact hpot
      have hM := determineWinner_money _ hn' hpot'
      rw [hADV]
      refine moneyConserved_congr t _ _ ?_ ?_ hM
      · rw [hDp, streetReset_chipSum]
      · rw [hDpot]
        rfl
    · have hshow' : (t.streetReset.dealNextStreet.gamePhase == Phase.showdown)
          = false := by
        cases hx : (t.streetReset.dealNextStreet.gamePhase == Phase.showdown) with
        | false => rfl
        | true => exact absurd hx hshow
      rw [advance_open_turn t hcan hshow']
      left
      show chipSum t.streetReset.dealNextStreet.players +
        t.streetReset.dealNextStreet.pot = chipSum t.players + t.pot
      rw [dealNextStreet_players, dealNextStreet_pot, streetReset_chipSum]
      rfl

/-- `moveToNextPlayer` conserves money: it passes the turn, or falls through
to `advanceToNextStreet`. -/
theorem moveToNextPlayer_money (t : Table)
    (h : ∀ p ∈ t.players, 0 ≤ p.chips) (hpot : 0 ≤ t.pot) :
    moneyConserved t t.moveToNextPlayer := by
  rcases hm : t.mvScan t.players.length t.currentTurnPosition with ⟨pos, found⟩
  have key : t.moveToNextPlayer =
      (if found = true then ({ t with currentTurnPosition := pos }).startTurnTimer
       else { t with currentTurnPosition := pos }.advanceToNextStreet) := by
    rw [Table.moveToNextPlayer, hm]
  cases found with
  | true =>
    rw [key, if_pos rfl]
    left
    rfl
  | false =>
    rw [key]
    simp only [Bool.false_eq_true, if_false]
    exact moneyConserved_congr t _ _ rfl rfl
      (advanceToNextStreet_money { t with currentTurnPosition := pos } h hpot)

theorem firstShowdownIdx_lt (t : Table)
    (hne : (t.playersInHand.filter (fun p => !p.folded)).length ≠ 0) :
    t.firstShowdownIdx < t.players.length := by
  have hlen : (t.playersInHand.filter (fun p => !p.folded)).length =
      ((List.range t.players.length).filter (fun k =>
        let p := t.players.getD k noPlayer
        inHandP p && !p.folded)).length := by
    rw [Table.playersInHand, List.filter_filter,
      length_filter_range_getD (fun p => !p.folded && inHandP p) t.players noPlayer]
    congr 1
    apply List.filter_congr
    intro k hk
    exact Bool.and_comm _ _
  simp only [Table.firstShowdownIdx]
  have hLne : 0 < ((List.range t.players.length).filter (fun k =>
      let p := t.players.getD k noPlayer
      inHandP p && !p.folded)).length := by
    rw [← hlen]
    omega
  have hmem := getD_mem ((List.range t.players.length).filter (fun k =>
    let p := t.players.getD k noPlayer
    inHandP p && !p.folded)) 0 0 hLne
  exact List.mem_range.mp (List.mem_filter.mp hmem).1

/-- The epilogue of an accepted action conserves money: it only records the
action and passes the turn or advances the street, except when it ends the
hand and awards the pot. -/
theorem afterAction_money (t : Table) (i : Nat) (action msg : String)
    (hi : i < t.players.length) (h : ∀ p ∈ t.players, 0 ≤ p.chips)
    (hpot : 0 ≤ t.pot) :
    moneyConserved t (t.afterAction i action msg) := by
  set q : Player := { t.players.getD i noPlayer with lastAction := some action }
    with hq
  set T2 : Table := ({ t with players := t.players.set i q }).broadcastAction msg
    with hT2
  have key : t.afterAction i action msg =
      (if ((T2.playersInHand.filter (fun p => !p.folded)).length == 1) = true then
        T2.endHand T2.firstShowdownIdx
      else if T2.isBettingRoundComplete = true then T2.advanceToNextStreet
      else T2.moveToNextPlayer) := rfl
  rw [key]
  have hT2p : T2.players = t.players.set i q := rfl
  have hT2c : chipSum T2.players = chipSum t.players := by
    rw [hT2p, chipSum_set _ _ _ hi]
    show chipSum t.players - (t.players.getD i noPlayer).chips +
      (t.players.getD i noPlayer).chips = chipSum t.players
    ring
  have hT2n : ∀ p ∈ T2.players, 0 ≤ p.chips := by
    rw [hT2p]
    intro p hp
    rcases List.mem_or_eq_of_mem_set hp with hp' | rfl
    · exact h p hp'
    · show 0 ≤ (t.players.getD i noPlayer).chips
      exact nonneg_getD t.players i h
  have hT2pot : T2.pot = t.pot := rfl
  by_cases h1 : ((T2.playersInHand.filter (fun p => !p.folded)).length == 1) = true
  · rw [if_pos h1]
    have hne : (T2.playersInHand.filter (fun p => !p.folded)).length ≠ 0 := by
      rw [beq_iff_eq] at h1
      omega
    have hidx : T2.firstShowdownIdx < T2.players.length := firstShowdownIdx_lt T2 hne
    obtain ⟨m1, m2⟩ := endHand_money T2 _ hidx hT2n (by
      rw [hT2pot]
      exact hpot)
    right
    refine ⟨1, le_refl 1, ?_, ?_, ?_⟩
    · rw [Nat.cast_one, Int.fmod_one, add_zero, m1, hT2c, hT2pot]
    · rw [Nat.cast_one, Int.fmod_one]
    · rw [Nat.cast_one, Int.fmod_one]
      omega
  · rw [if_neg h1]
    by_cases h2 : T2.isBettingRoundComplete = true
    · rw [if_pos h2]
      exact moneyConserved_congr t T2 _ hT2c hT2pot
        (advanceToNextStreet_money T2 hT2n (by
          rw [hT2pot]
          exact hpot))
    · rw [if_neg h2]
      exact moneyConserved_congr t T2 _ hT2c hT2pot
        (moveToNextPlayer_money T2 hT2n (by
          rw [hT2pot]
          exact hpot))

theorem chipSum_set_same (l : List Player) (i : Nat) (hi : i < l.length)
    (p' : Player) (hchip : p'.chips = (l.getD i noPlayer).chips) :
    chipSum (l.set i p') = chipSum l := by
  rw [chipSum_set _ _ _ hi, hchip]
  ring

theorem chipSum_set_pot (l : List Player) (i : Nat) (hi : i < l.length)
    (p' : Player) (P d : Int)
    (hchip : p'.chips = (l.getD i noPlayer).chips - d) :
    chipSum (l.set i p') + (P + d) = chipSum l + P := by
  rw [chipSum_set _ _ _ hi, hchip]
  ring

theorem moneyConserved_transQ (t u t' : Table)
    (hq : chipSum u.players + u.pot = chipSum t.players + t.pot)
    (h : moneyConserved u t') : moneyConserved t t' := by
  rcases h with h | ⟨k, hk, h1, h2, h3⟩
  · left
    rw [h, hq]
  · right
    exact ⟨k, hk, by rw [h1, hq], h2, h3⟩

theorem findIdx?_lt_aux {α : Type} (p : α → Bool) : ∀ (l : List α) (s i : Nat),
    List.findIdx? p l s = some i → i < s + l.length := by
  intro l
  induction l with
  | nil =>
    intro s i hsome
    simp [List.findIdx?] at hsome
  | cons x xs ih =>
    intro s i hsome
    rw [List.findIdx?_cons] at hsome
    by_cases hx : p x = true
    · rw [if_pos hx] at hsome
      simp only [Option.some.injEq] at hsome
      subst hsome
      simp only [List.length_cons]
      omega
    · rw [if_neg hx] at hsome
      have := ih (s + 1) i hsome
      simp only [List.length_cons]
      omega

theorem findIdx?_lt {α : Type} (p : α → Bool) (l : List α) (i : Nat)
    (hsome : l.findIdx? p = some i) : i < l.length := by
  have := findIdx?_lt_aux p l 0 i hsome
  omega

/-- An accepted action switch moves chips only between the actor's stack and
the pot: chips plus pot are conserved, stacks stay nonnegative, the pot
stays nonnegative (every seat's street bet already sits in the pot, so even
the refund a call issues to a seat betting above `currentBet` — reachable
through a short-stacked big blind — cannot overdraw it), and the seat list
keeps its length. -/
theorem applyAction_conserve (t : Table) (i sid : Nat) (action : String)
    (amount : Int) (t2 : Table) (msg : String)
    (hi : i < t.players.length)
    (h : ∀ p ∈ t.players, 0 ≤ p.chips) (hpot : 0 ≤ t.pot)
    (hcb : 0 ≤ t.currentBet)
    (hbp : ∀ p ∈ t.players, p.bet ≤ t.pot)
    (hsome : t.applyAction i sid action amount = some (t2, msg)) :
    chipSum t2.players + t2.pot = chipSum t.players + t.pot ∧
    (∀ p ∈ t2.players, 0 ≤ p.chips) ∧ 0 ≤ t2.pot ∧
    t2.players.length = t.players.length := by
  have hbpi : (t.players.getD i noPlayer).bet ≤ t.pot :=
    hbp _ (getD_mem t.players i noPlayer hi)
  have hci : 0 ≤ (t.players.getD i noPlayer).chips := nonneg_getD t.players i h
  simp only [Table.applyAction] at hsome
  by_cases hf : (action == "fold") = true
  · rw [if_pos hf] at hsome
    simp only [Option.some.injEq, Prod.mk.injEq] at hsome
    obtain ⟨h1, h2⟩ := hsome
    subst h1
    refine ⟨?_, ?_, hpot, List.length_set _ _ _⟩
    · show chipSum (t.players.set i
        { t.players.getD i noPlayer with folded := true }) + t.pot =
        chipSum t.players + t.pot
      rw [chipSum_set _ _ _ hi]
      show chipSum t.players - (t.players.getD i noPlayer).chips +
        (t.players.getD i noPlayer).chips + t.pot = chipSum t.players + t.pot
      ring
    · intro p hp
      rcases List.mem_or_eq_of_mem_set hp with h' | rfl
      · exact h p h'
      · exact hci
  · rw [if_neg hf] at hsome
    by_cases hc : (action == "check") = true
    · rw [if_pos hc] at hsome
      by_cases hlt : ((t.players.getD i noPlayer).bet < t.currentBet)
      · rw [if_pos hlt] at hsome
        cases hsome
      · rw [if_neg hlt] at hsome
        simp only [Option.some.injEq, Prod.mk.injEq] at hsome
        obtain ⟨h1, h2⟩ := hsome
        subst h1
        refine ⟨?_, ?_, hpot, List.length_set _ _ _⟩
        · show chipSum (t.players.set i
            { t.players.getD i noPlayer with hasActedThisRound := true }) + t.pot =
            chipSum t.players + t.pot
          rw [chipSum_set _ _ _ hi]
          show chipSum t.players - (t.players.getD i noPlayer).chips +
            (t.players.getD i noPlayer).chips + t.pot = chipSum t.players + t.pot
          ring
        · intro p hp
          rcases List.mem_or_eq_of_mem_set hp with h' | rfl
          · exact h p h'
          · exact hci
    · rw [if_neg hc] at hsome
      by_cases hcall : (action == "call") = true
      · rw [if_pos hcall] at hsome
        simp only [Option.some.injEq, Prod.mk.injEq] at hsome
        obtain ⟨h1, h2⟩ := hsome
        subst h1
        have hminle : min (t.currentBet - (t.players.getD i noPlayer).bet)
            (t.players.getD i noPlayer).chips ≤
            (t.players.getD i noPlayer).chips := min_le_right _ _
        have hmc := min_choice (t.currentBet - (t.players.getD i noPlayer).bet)
          (t.players.getD i noPlayer).chips
        refine ⟨?_, ?_, ?_, List.length_set _ _ _⟩
        · exact chipSum_set_pot t.players i hi _ t.pot _ rfl
        · intro p hp
          rcases List.mem_or_eq_of_mem_set hp with h' | rfl
          · exact h p h'
          · show 0 ≤ (t.players.getD i noPlayer).chips -
              min (t.currentBet - (t.players.getD i noPlayer).bet)
                (t.players.getD i noPlayer).chips
            omega
        · show 0 ≤ t.pot + min (t.currentBet - (t.players.getD i noPlayer).bet)
            (t.players.getD i noPlayer).chips
          rcases hmc with hmc | hmc <;> omega
      · rw [if_neg hcall] at hsome
        by_cases hr : (action == "raise") = true
        · rw [if_pos hr] at hsome
          by_cases hr1 : (amount ≤ t.currentBet)
          · rw [if_pos hr1] at hsome
            cases hsome
          · rw [if_neg hr1] at hsome
            by_cases hr2 : (decide (amount - t.currentBet < t.minRaise) &&
                decide (amount < (t.players.getD i noPlayer).chips +
                  (t.players.getD i noPlayer).bet)) = true
            · rw [if_pos hr2] at hsome
              cases hsome
            · rw [if_neg hr2] at hsome
              by_cases hr3 : ((t.players.getD i noPlayer).chips +
                  (t.players.getD i noPlayer).bet < amount)
              · rw [if_pos hr3] at hsome
                cases hsome
              · rw [if_neg hr3] at hsome
                simp only [Option.some.injEq, Prod.mk.injEq] at hsome
                obtain ⟨h1, h2⟩ := hsome
                subst h1
                have hfc : ∀ q : Player,
                    ((if q.socketId != sid && !q.folded && !q.isAllIn then
                      { q with hasActedThisRound := false } else q) : Player).chips
                    = q.chips := by
                  intro q
                  split <;> rfl
                have hoc : chipSum (t.players.map (fun q =>
                    if q.socketId != sid && !q.folded && !q.isAllIn then
                      { q with hasActedThisRound := false } else q)) =
                    chipSum t.players := chipSum_map_pres _ _ hfc
                have holen : (t.players.map (fun q =>
                    if q.socketId != sid && !q.folded && !q.isAllIn then
                      { q with hasActedThisRound := false } else q)).length =
                    t.players.length := List.length_map _ _
                have hOth : ((t.players.map (fun q =>
                    if q.socketId != sid && !q.folded && !q.isAllIn then
                      { q with hasActedThisRound := false } else q)).getD i
                      noPlayer).chips = (t.players.getD i noPlayer).chips := by
                  rw [getD_map_of_lt _ t.players i noPlayer noPlayer hi, hfc]
                have hset : i < (t.players.map (fun q =>
                    if q.socketId != sid && !q.folded && !q.isAllIn then
                      { q with hasActedThisRound := false } else q)).length := by
                  rw [holen]
                  exact hi
                refine ⟨?_, ?_, ?_, ?_⟩
                · rw [chipSum_set _ _ _ hset, hOth, hoc]
                  show chipSum t.players - (t.players.getD i noPlayer).chips +
                    ((t.players.getD i noPlayer).chips -
                      (amount - (t.players.getD i noPlayer).bet)) +
                    (t.pot + (amount - (t.players.getD i noPlayer).bet)) =
                    chipSum t.players + t.pot
                  ring
                · intro p hp
                  rcases List.mem_or_eq_of_mem_set hp with h' | rfl
                  · obtain ⟨q, hq, rfl⟩ := List.mem_map.mp h'
                    rw [hfc q]
                    exact h q hq
                  · show 0 ≤ (t.players.getD i noPlayer).chips -
                      (amount - (t.players.getD i noPlayer).bet)
                    omega
                · show 0 ≤ t.pot + (amount - (t.players.getD i noPlayer).bet)
                  omega
                · show ((t.players.map (fun q =>
                    if q.socketId != sid && !q.folded && !q.isAllIn then
                      { q with hasActedThisRound := false } else q)).set i _).length
                    = t.players.length
                  rw [List.length_set, List.length_map]
        · rw [if_neg hr] at hsome
          cases hsome

/-- `playerAction` conserves money for every intent, accepted or rejected:
chips move only between the acting stack and the pot, except a hand-ending
action, which awards the pot. -/
theorem playerAction_money (t : Table) (sid : Nat) (action : String)
    (amount : Int)
    (h : ∀ p ∈ t.players, 0 ≤ p.chips) (hpot : 0 ≤ t.pot)
    (hcb : 0 ≤ t.currentBet)
    (hbp : ∀ p ∈ t.players, p.bet ≤ t.pot) :
    moneyConserved t (t.playerAction sid action amount).2 := by
  rcases hidx : t.getPlayerIdx sid with _ | i
  · have key : t.playerAction sid action amount = (false, t) := by
      rw [Table.playerAction, hidx]
    rw [key]
    left
    rfl
  · have hi : i < t.players.length := findIdx?_lt _ t.players i hidx
    have key : t.playerAction sid action amount =
        (if ((t.players.getD i noPlayer).folded ||
            (t.players.getD i noPlayer).isAllIn || t.paused) = true then (false, t)
         else if (!t.turnOk sid) = true then (false, t)
         else match (t.clearTurnTimer).applyAction i sid action amount with
           | none => (false, t.clearTurnTimer)
           | some (t2, msg) => (true, t2.afterAction i action msg)) := by
      rw [Table.playerAction, hidx]
    rw [key]
    by_cases hg1 : ((t.players.getD i noPlayer).folded ||
        (t.players.getD i noPlayer).isAllIn || t.paused) = true
    · rw [if_pos hg1]
      left
      rfl
    · rw [if_neg hg1]
      by_cases hg2 : (!t.turnOk sid) = true
      · rw [if_pos hg2]
        left
        rfl
      · rw [if_neg hg2]
        rcases happ : (t.clearTurnTimer).applyAction i sid action amount
          with _ | ⟨t2, msg⟩
        · left
          rfl
        · obtain ⟨c1, c2, c3, c4⟩ := applyAction_conserve t.clearTurnTimer i sid
            action amount t2 msg hi h hpot hcb hbp happ
          have hAM := afterAction_money t2 i action msg (by
            rw [c4]
            exact hi) c2 c3
          exact moneyConserved_transQ t t2 _ c1 hAM

theorem mvScan_found_aux (t : Table) (m : Nat) (hm : m < t.players.length)
    (hq : mvQual (t.players.getD m noPlayer) = true) :
    ∀ (k fuel : Nat) (pos : Int), k < fuel →
      ((pos + 1 + (k : Int)) % (t.players.length : Int)).toNat = m →
      ∃ r, t.mvScan fuel pos = (r, true) := by
  intro k
  induction k with
  | zero =>
    intro fuel pos hfuel hoff
    obtain ⟨f, rfl⟩ : ∃ f, fuel = f + 1 := ⟨fuel - 1, by omega⟩
    have hoff' : ((pos + 1) % (t.players.length : Int)).toNat = m := by
      simpa using hoff
    refine ⟨(pos + 1) % (t.players.length : Int), ?_⟩
    have hq' : mvQual (t.players[m]?.getD noPlayer) = true := by
      simpa using hq
    rw [Table.mvScan, hoff', get?_eq_some_getD t.players m noPlayer hm]
    simp [hq']
  | succ k ih =>
    intro fuel pos hfuel hoff
    obtain ⟨f, rfl⟩ : ∃ f, fuel = f + 1 := ⟨fuel - 1, by omega⟩
    have hshift : ((pos + 1) % (t.players.length : Int) + 1 + (k : Int))
        % (t.players.length : Int) =
        (pos + 1 + ((k : Int) + 1)) % (t.players.length : Int) := by
      rw [show (pos + 1) % (t.players.length : Int) + 1 + (k : Int) =
        (pos + 1) % (t.players.length : Int) + (1 + (k : Int)) from by ring,
        int_emod_shift]
      ring_nf
    rw [Table.mvScan]
    cases hget : t.players.get? ((pos + 1) % (t.players.length : Int)).toNat with
    | none =>
      exact ih f ((pos + 1) % (t.players.length : Int)) (by omega)
        (by rw [hshift]; exact_mod_cast hoff)
    | some p =>
      cases hqp : mvQual p with
      | true => exact ⟨(pos + 1) % (t.players.length : Int), by simp [hqp]⟩
      | false =>
        simp only [hqp, Bool.false_eq_true, if_false]
        exact ih f ((pos + 1) % (t.players.length : Int)) (by omega)
          (by rw [hshift]; exact_mod_cast hoff)

theorem mvScan_found (t : Table) (m : Nat) (hm : m < t.players.length)
    (hq : mvQual (t.players.getD m noPlayer) = true) (pos : Int) :
    ∃ r, t.mvScan t.players.length pos = (r, true) := by
  set n : Nat := t.players.length with hn
  have hnpos : 0 < n := by omega
  have hr0 : 0 ≤ (pos + 1) % (n : Int) ∧ (pos + 1) % (n : Int) < (n : Int) :=
    ⟨Int.emod_nonneg _ (by exact_mod_cast hnpos.ne'), Int.emod_lt_of_pos _ (by exact_mod_cast hnpos)⟩
  set r0 : Int := (pos + 1) % (n : Int) with hr0def
  obtain ⟨k, hk, hoff⟩ : ∃ k : Nat, k < n ∧ (r0 + (k : Int)) % (n : Int) = (m : Int) := by
    rcases le_or_lt r0 (m : Int) with hle | hlt
    · refine ⟨((m : Int) - r0).toNat, by omega, ?_⟩
      rw [Int.toNat_of_nonneg (by omega)]
      rw [show r0 + ((m : Int) - r0) = (m : Int) from by ring]
      exact Int.emod_eq_of_lt (by omega) (by exact_mod_cast hm)
    · refine ⟨((m : Int) + (n : Int) - r0).toNat, by omega, ?_⟩
      rw [Int.toNat_of_nonneg (by omega)]
      rw [show r0 + ((m : Int) + (n : Int) - r0) = (m : Int) + (n : Int) * 1 from by ring,
        Int.add_mul_emod_self_left]
      exact Int.emod_eq_of_lt (by omega) (by exact_mod_cast hm)
  refine mvScan_found_aux t m hm hq k n pos ?_ ?_
  · omega
  · have : (pos + 1 + (k : Int)) % (n : Int) = (m : Int) := by
      rw [← int_emod_shift (pos + 1) (k : Int) (n : Int)]
      exact hoff
    rw [this]
    simp

theorem moveToNextPlayer_found (t : Table) (m : Nat) (hm : m < t.players.length)
    (hq : mvQual (t.players.getD m noPlayer) = true) :
    ∃ r, t.moveToNextPlayer =
      Table.startTurnTimer { t with currentTurnPosition := r } := by
  obtain ⟨r, hr⟩ := mvScan_found t m hm hq t.currentTurnPosition
  refine ⟨r, ?_⟩
  rw [Table.moveToNextPlayer, hr]
  rfl

/-- When some other live seat has not yet acted this round, the epilogue of
an accepted action neither ends the hand nor advances the street: it records
the action, logs the message, and passes the turn, leaving everything else
unchanged. -/
theorem afterAction_moves (t : Table) (i j : Nat) (action msg : String)
    (hi : i < t.players.length) (hj : j < t.players.length) (hji : j ≠ i)
    (hin : inHandP (t.players.getD i noPlayer) = true)
    (hq : mvQual (t.players.getD j noPlayer) = true)
    (hqact : (t.players.getD j noPlayer).hasActedThisRound = false) :
    ∃ r, t.afterAction i action msg =
      { t with
        players := t.players.set i
          { t.players.getD i noPlayer with lastAction := some action },
        actionLog := t.actionLog ++ [msg],
        currentTurnPosition := r,
        turnTimerArmed := true } := by
  set p' : Player := { t.players.getD i noPlayer with lastAction := some action }
    with hp'
  set t2 : Table :=
    { t with
      players := t.players.set i p',
      actionLog := t.actionLog ++ [msg] } with ht2
  have hq_aux : ∀ pr : Player → Bool,
      (pr (t.players.getD j noPlayer) = pr (t2.players.getD j noPlayer)) := by
    intro pr
    rw [ht2]
    rw [getD_set_ne t.players i j p' noPlayer hji]
  have hgj : t2.players.getD j noPlayer = t.players.getD j noPlayer := by
    rw [ht2]
    exact getD_set_ne t.players i j p' noPlayer hji
  have hgi : t2.players.getD i noPlayer = p' := by
    rw [ht2]
    exact getD_set_self t.players i p' noPlayer hi
  have hq2 : mvQual (t2.players.getD j noPlayer) = true := by rw [hgj]; exact hq
  -- the hand is not over: seats i and j are both unfolded and in hand
  have hq' := hq
  simp only [mvQual, Bool.and_eq_true, Bool.not_eq_true', decide_eq_true_eq] at hq'
  obtain ⟨⟨⟨hjf, hjd⟩, hja⟩, hjc⟩ := hq'
  have hin' := hin
  simp only [inHandP, Bool.and_eq_true, Bool.not_eq_true', decide_eq_true_eq] at hin'
  obtain ⟨⟨hif, hid⟩, hic⟩ := hin'
  have hin_i : (!p'.folded && inHandP p') = true := by
    show (!(t.players.getD i noPlayer).folded &&
      inHandP (t.players.getD i noPlayer)) = true
    rw [hin, hif]
    rfl
  have hin_j : (!(t2.players.getD j noPlayer).folded &&
      inHandP (t2.players.getD j noPlayer)) = true := by
    rw [hgj]
    simp only [inHandP, hjf, hjd, Bool.not_false, Bool.true_and, decide_eq_true_eq]
    omega
  have htwo : 2 ≤ ((t2.playersInHand.filter (fun p => !p.folded)).length) := by
    rw [Table.playersInHand, List.filter_filter]
    refine two_le_length_filter _ t2.players noPlayer i j ?_ ?_ (by omega) ?_ ?_
    · simpa [ht2] using hi
    · simpa [ht2] using hj
    · rw [hgi]; exact hin_i
    · exact hin_j
  have hone : ((t2.playersInHand.filter (fun p => !p.folded)).length == 1) = false := by
    have : (t2.playersInHand.filter (fun p => !p.folded)).length ≠ 1 := by omega
    simpa using this
  have hcomplete : t2.isBettingRoundComplete = false := by
    rw [Table.isBettingRoundComplete]
    refine all_false_of_mem _ _ (t2.players.getD j noPlayer) ?_ ?_
    · refine List.mem_filter.mpr ⟨List.mem_filter.mpr ⟨?_, ?_⟩, ?_⟩
      · exact getD_mem t2.players j noPlayer (by simpa [ht2] using hj)
      · rw [hgj]
        simp only [inHandP, hjf, hjd, Bool.not_false, Bool.true_and, decide_eq_true_eq]
        omega
      · rw [hgj]
        simp only [hjf, hja]
        rfl
    · rw [hgj, hqact]
      rfl
  obtain ⟨r, hr⟩ := moveToNextPlayer_found t2 j (by simpa [ht2] using hj) hq2
  refine ⟨r, ?_⟩
  have key : t.afterAction i action msg =
      (if ((t2.playersInHand.filter (fun p => !p.folded)).length == 1) = true
       then t2.endHand t2.firstShowdownIdx
       else if t2.isBettingRoundComplete = true then t2.advanceToNextStreet
       else t2.moveToNextPlayer) := rfl
  rw [key, hone, hcomplete]
  simp only [Bool.false_eq_true, if_false]
  rw [hr]
  rfl

/-! ### Claim theorems -/

/-- C1. The claim — a hand whose best five-card category is strictly higher
always receives a strictly higher `strengthScore` from `PokerHand.rankHand` —
is false in the code: the flush/high-card kicker weighting
`v * 100 ^ (4 - i)` reaches `1.4e9`, overflowing the `1,000,000`-sized
category offsets. Here the seven cards containing a straight flush
(best category 8) score strictly BELOW seven no-pair cards (best
category 0); `rankHand` even returns the high-card subset as "best" for the
straight-flush hand. -/
theorem evaluator_category_order_bug :
    PokerHand.bestRank straightFlushSeven = 8 ∧
    PokerHand.bestRank aceHighSeven = 0 ∧
    (PokerHand.rankHand straightFlushSeven).2 < (PokerHand.rankHand aceHighSeven).2 := by
  refine ⟨by decide, by decide, by decide⟩

/-- C2. The claim — the wheel straight scores with high card 5, strictly
below the 2-3-4-5-6 straight — is false in the code: `evaluateHand` scores
every straight as `4000000 + Math.max(...values)`, and for the wheel the
maximum value is the ace (14), so the wheel scores 4000014, strictly ABOVE
the six-high straight's 4000006 (and tied with broadway). The
classification as a straight (category 4) itself is correct. -/
theorem wheel_straight_score_bug :
    PokerHand.evaluateHand wheelFive = (4, 4000014) ∧
    PokerHand.evaluateHand sixHighFive = (4, 4000006) ∧
    (PokerHand.evaluateHand sixHighFive).2 < (PokerHand.evaluateHand wheelFive).2 := by
  refine ⟨by decide, by decide, by decide⟩

/-- C3. The claim — a rejected `playerAction` leaves the table state,
including the armed turn timer, exactly as it was — is false in the code:
`clearTurnTimer()` runs before the action switch (src/server.js:344), so an
illegal check (here: checking while facing an unmatched bet) returns
failure yet disarms the pending turn timer, which is never re-armed. All
other state is untouched: the rejected call leaves exactly
`clearTurnTimer` of the original table. -/
theorem rejected_action_clears_timer_bug :
    (Table.playerAction rejectedCheckTable 1 "check" 0).1 = false ∧
    rejectedCheckTable.turnTimerArmed = true ∧
    (Table.playerAction rejectedCheckTable 1 "check" 0).2 =
      Table.clearTurnTimer rejectedCheckTable := by
  refine ⟨by decide, by decide, by decide⟩

/-- C9 counterexample. The claim — an in-turn check is accepted if and only
if the acting player's street bet equals `currentBet` — is false in the
code: the guard is `player.bet < this.currentBet` (src/server.js:356), so a
bet strictly above `currentBet` is also accepted. Here seat 0 checks with
`bet = 50 ≠ currentBet = 30` and the action succeeds. -/
theorem check_above_bet_cex :
    (Table.playerAction checkAboveBetTable 1 "check" 0).1 = true ∧
    (checkAboveBetTable.players.getD 0 noPlayer).bet ≠ checkAboveBetTable.currentBet := by
  refine ⟨by decide, by decide⟩

/-- C10. `PokerHand.rankHand` guards on `cards.length !== 7` and returns the
default `{ rank: 0, score: 0 }` for any other length — it never throws, and
a malformed hand compares equal to the weakest possible hand. -/
theorem rankHand_non7_default (cards : List Card) (h : cards.length ≠ 7) :
    PokerHand.rankHand cards = (0, 0) := by
  unfold PokerHand.rankHand
  rw [if_pos h]

theorem rankHand_non7_default_witness :
    ([] : List Card).length ≠ 7 ∧ PokerHand.rankHand [] = (0, 0) :=
  ⟨by decide, rankHand_non7_default [] (by decide)⟩

/-- C9 amended. An in-turn check by a live seat is accepted if and only if
the acting player's street bet is greater than or equal to `currentBet`
(the source tests `player.bet < this.currentBet`, not inequality of
equality), and an accepted check only marks the player as having acted
(recording the action and passing the turn): pot, chips, bets, `currentBet`,
`minRaise` and fold states are all untouched. Hypotheses: seat `i` is the
acting seat (found for `sid`, holding the turn, in hand, not all-in, table
unpaused) and some other live seat `j` still has to act this round. -/
theorem check_legality (t : Table) (sid i j : Nat)
    (hfind : t.getPlayerIdx sid = some i)
    (hi : i < t.players.length)
    (hin : inHandP (t.players.getD i noPlayer) = true)
    (hpa : (t.players.getD i noPlayer).isAllIn = false)
    (hpaused : t.paused = false)
    (hturn : t.turnOk sid = true)
    (hj : j < t.players.length) (hji : j ≠ i)
    (hq : mvQual (t.players.getD j noPlayer) = true)
    (hqact : (t.players.getD j noPlayer).hasActedThisRound = false) :
    ((t.playerAction sid "check" 0).1 =
      decide (t.currentBet ≤ (t.players.getD i noPlayer).bet)) ∧
    (t.currentBet ≤ (t.players.getD i noPlayer).bet →
      ((t.playerAction sid "check" 0).2.pot = t.pot ∧
       (t.playerAction sid "check" 0).2.currentBet = t.currentBet ∧
       (t.playerAction sid "check" 0).2.minRaise = t.minRaise ∧
       (t.playerAction sid "check" 0).2.players.map (fun p => p.chips) =
         t.players.map (fun p => p.chips) ∧
       (t.playerAction sid "check" 0).2.players.map (fun p => p.bet) =
         t.players.map (fun p => p.bet) ∧
       (t.playerAction sid "check" 0).2.players.map (fun p => p.folded) =
         t.players.map (fun p => p.folded) ∧
       ((t.playerAction sid "check" 0).2.players.getD i noPlayer).hasActedThisRound =
         true)) := by
  have hin' := hin
  simp only [inHandP, Bool.and_eq_true, Bool.not_eq_true', decide_eq_true_eq] at hin'
  obtain ⟨⟨hif, hid⟩, hic⟩ := hin'
  have gate : ((t.players.getD i noPlayer).folded ||
      (t.players.getD i noPlayer).isAllIn || t.paused) = false := by
    rw [hif, hpa, hpaused]
    rfl
  by_cases hc : (t.players.getD i noPlayer).bet < t.currentBet
  · have happ : (t.clearTurnTimer).applyAction i sid "check" 0 = none := by
      have e : Table.applyAction (t.clearTurnTimer) i sid "check" 0 =
          (if (t.players.getD i noPlayer).bet < t.currentBet then none
           else some ({ t.clearTurnTimer with
             players := t.players.set i
               { t.players.getD i noPlayer with hasActedThisRound := true } },
             (t.players.getD i noPlayer).username ++ " checks")) := rfl
      rw [e, if_pos hc]
    have e0 : t.playerAction sid "check" 0 = (false, t.clearTurnTimer) := by
      unfold Table.playerAction
      rw [hfind]
      simp only [gate, Bool.false_eq_true, if_false, hturn, Bool.not_true, happ]
    refine ⟨?_, ?_⟩
    · rw [e0, decide_eq_false (not_le.mpr hc)]
    · intro hle
      exact absurd hle (not_le.mpr hc)
  · set pA : Player := { t.players.getD i noPlayer with hasActedThisRound := true }
      with hpA
    set msgA : String := (t.players.getD i noPlayer).username ++ " checks" with hmsg
    set t2 : Table := { t.clearTurnTimer with players := t.players.set i pA }
      with ht2v
    have happ : (t.clearTurnTimer).applyAction i sid "check" 0 = some (t2, msgA) := by
      have e : Table.applyAction (t.clearTurnTimer) i sid "check" 0 =
          (if (t.players.getD i noPlayer).bet < t.currentBet then none
           else some (t2, msgA)) := rfl
      rw [e, if_neg hc]
    have e0 : t.playerAction sid "check" 0 = (true, t2.afterAction i "check" msgA) := by
      unfold Table.playerAction
      rw [hfind]
      simp only [gate, Bool.false_eq_true, if_false, hturn, Bool.not_true, happ]
    have hlen2 : t2.players.length = t.players.length := by
      rw [ht2v]
      simp
    have hgi2 : t2.players.getD i noPlayer = pA := by
      rw [ht2v]
      exact getD_set_self _ _ _ _ hi
    have hgj2 : t2.players.getD j noPlayer = t.players.getD j noPlayer := by
      rw [ht2v]
      exact getD_set_ne _ _ _ _ _ hji
    obtain ⟨r, hmv⟩ := afterAction_moves t2 i j "check" msgA
      (by rw [hlen2]; exact hi) (by rw [hlen2]; exact hj) hji
      (by rw [hgi2]; exact hin) (by rw [hgj2]; exact hq) (by rw [hgj2]; exact hqact)
    rw [hgi2] at hmv
    have hset2 : t2.players.set i { pA with lastAction := some "check" } =
        t.players.set i { pA with lastAction := some "check" } := by
      rw [ht2v]
      have : (t.clearTurnTimer).players = t.players := rfl
      simp only [this]
      exact List.set_set ..
    rw [hset2] at hmv
    refine ⟨?_, ?_⟩
    · rw [e0, decide_eq_true (not_lt.mp hc)]
    · intro _
      rw [e0]
      simp only [hmv]
      refine ⟨rfl, rfl, rfl, ?_, ?_, ?_, ?_⟩
      · exact map_set_same _ _ i _ noPlayer rfl
      · exact map_set_same _ _ i _ noPlayer rfl
      · exact map_set_same _ _ i _ noPlayer rfl
      · rw [getD_set_self _ _ _ _ hi]

/-- C5. Raise legality and effect. With seat `i` acting in turn (live,
unpaused) and some other live seat `j` of a different socket id present: a
raise to total `X = amount` is rejected when `X ≤ currentBet`; rejected when
the increment `X - currentBet` is below `minRaise` unless `X` equals the
raiser's chips plus current bet (full all-in); and an accepted raise moves
`X - bet` chips from the raiser's stack into the pot, sets
`currentBet = X`, sets `minRaise = X - currentBet(old)`, and clears
`hasActedThisRound` for every other non-folded, non-all-in seat. -/
theorem raise_legality (t : Table) (sid i j : Nat) (amount : Int)
    (hfind : t.getPlayerIdx sid = some i)
    (hi : i < t.players.length)
    (hin : inHandP (t.players.getD i noPlayer) = true)
    (hpa : (t.players.getD i noPlayer).isAllIn = false)
    (hpaused : t.paused = false)
    (hturn : t.turnOk sid = true)
    (hj : j < t.players.length) (hji : j ≠ i)
    (hjsid : (t.players.getD j noPlayer).socketId ≠ sid)
    (hq : mvQual (t.players.getD j noPlayer) = true) :
    (amount ≤ t.currentBet → (t.playerAction sid "raise" amount).1 = false) ∧
    (t.currentBet < amount → amount - t.currentBet < t.minRaise →
      amount ≠ (t.players.getD i noPlayer).chips + (t.players.getD i noPlayer).bet →
      (t.playerAction sid "raise" amount).1 = false) ∧
    (t.currentBet < amount →
      (t.minRaise ≤ amount - t.currentBet ∨
        amount = (t.players.getD i noPlayer).chips + (t.players.getD i noPlayer).bet) →
      amount ≤ (t.players.getD i noPlayer).chips + (t.players.getD i noPlayer).bet →
      ((t.playerAction sid "raise" amount).1 = true ∧
       (t.playerAction sid "raise" amount).2.currentBet = amount ∧
       (t.playerAction sid "raise" amount).2.minRaise = amount - t.currentBet ∧
       (t.playerAction sid "raise" amount).2.pot =
         t.pot + (amount - (t.players.getD i noPlayer).bet) ∧
       ((t.playerAction sid "raise" amount).2.players.getD i noPlayer).chips =
         (t.players.getD i noPlayer).chips -
           (amount - (t.players.getD i noPlayer).bet) ∧
       ((t.playerAction sid "raise" amount).2.players.getD i noPlayer).bet = amount ∧
       (∀ k, k < t.players.length → k ≠ i →
         (t.players.getD k noPlayer).socketId ≠ sid →
         (t.players.getD k noPlayer).folded = false →
         (t.players.getD k noPlayer).isAllIn = false →
         ((t.playerAction sid "raise" amount).2.players.getD k
           noPlayer).hasActedThisRound = false))) := by
  have hin' := hin
  simp only [inHandP, Bool.and_eq_true, Bool.not_eq_true', decide_eq_true_eq] at hin'
  obtain ⟨⟨hif, hid⟩, hic⟩ := hin'
  have gate : ((t.players.getD i noPlayer).folded ||
      (t.players.getD i noPlayer).isAllIn || t.paused) = false := by
    rw [hif, hpa, hpaused]
    rfl
  set fR : Player → Player := fun q =>
    if q.socketId != sid && !q.folded && !q.isAllIn then
      { q with hasActedThisRound := false }
    else q with hfR
  set pR : Player := { t.players.getD i noPlayer with
    chips := (t.players.getD i noPlayer).chips -
      (amount - (t.players.getD i noPlayer).bet),
    bet := amount,
    totalBetThisRound := (t.players.getD i noPlayer).totalBetThisRound +
      (amount - (t.players.getD i noPlayer).bet),
    hasActedThisRound := true,
    isAllIn := if ((t.players.getD i noPlayer).chips -
      (amount - (t.players.getD i noPlayer).bet)) == 0 then true
      else (t.players.getD i noPlayer).isAllIn } with hpR
  set T2 : Table := { t.clearTurnTimer with
    players := (t.players.map fR).set i pR,
    pot := t.pot + (amount - (t.players.getD i noPlayer).bet),
    minRaise := amount - t.currentBet,
    currentBet := amount } with hT2
  set msgA : String := (t.players.getD i noPlayer).username ++
    (if ((t.players.getD i noPlayer).chips -
      (amount - (t.players.getD i noPlayer).bet)) == 0 then " raises (all-in)"
     else " raises") with hmsgA
  have e : (t.clearTurnTimer).applyAction i sid "raise" amount =
      (if amount ≤ t.currentBet then none
       else if (amount - t.currentBet < t.minRaise &&
           amount < (t.players.getD i noPlayer).chips +
             (t.players.getD i noPlayer).bet) = true then none
       else if (t.players.getD i noPlayer).chips +
           (t.players.getD i noPlayer).bet < amount then none
       else some (T2, msgA)) := rfl
  refine ⟨?_, ?_, ?_⟩
  · intro h1
    have happ : (t.clearTurnTimer).applyAction i sid "raise" amount = none := by
      rw [e, if_pos h1]
    have e0 : t.playerAction sid "raise" amount = (false, t.clearTurnTimer) := by
      unfold Table.playerAction
      rw [hfind]
      simp only [gate, Bool.false_eq_true, if_false, hturn, Bool.not_true, happ]
    rw [e0]
  · intro h1 h2 h3
    have happ : (t.clearTurnTimer).applyAction i sid "raise" amount = none := by
      rcases lt_or_gt_of_ne h3 with hlt | hgt
      · rw [e, if_neg (by omega),
          if_pos (by simp only [Bool.and_eq_true, decide_eq_true_eq]; omega)]
      · rw [e, if_neg (by omega),
          if_neg (by simp only [Bool.and_eq_true, decide_eq_true_eq]; omega),
          if_pos (by omega)]
    have e0 : t.playerAction sid "raise" amount = (false, t.clearTurnTimer) := by
      unfold Table.playerAction
      rw [hfind]
      simp only [gate, Bool.false_eq_true, if_false, hturn, Bool.not_true, happ]
    rw [e0]
  · intro h1 h2 h3
    have happ : (t.clearTurnTimer).applyAction i sid "raise" amount =
        some (T2, msgA) := by
      rcases h2 with h2a | h2a
      · rw [e, if_neg (by omega),
          if_neg (by simp only [Bool.and_eq_true, decide_eq_true_eq]; omega),
          if_neg (by omega)]
      · rw [e, if_neg (by omega),
          if_neg (by simp only [Bool.and_eq_true, decide_eq_true_eq]; omega),
          if_neg (by omega)]
    have e0 : t.playerAction sid "raise" amount =
        (true, T2.afterAction i "raise" msgA) := by
      unfold Table.playerAction
      rw [hfind]
      simp only [gate, Bool.false_eq_true, if_false, hturn, Bool.not_true, happ]
    have hq' := hq
    simp only [mvQual, Bool.and_eq_true, Bool.not_eq_true', decide_eq_true_eq] at hq'
    obtain ⟨⟨⟨hjf, hjd⟩, hja⟩, hjc⟩ := hq'
    have hlen2 : T2.players.length = t.players.length := by
      rw [hT2]
      simp
    have hfRj : fR (t.players.getD j noPlayer) =
        { t.players.getD j noPlayer with hasActedThisRound := false } := by
      rw [hfR]
      have hc : ((t.players.getD j noPlayer).socketId != sid &&
          !(t.players.getD j noPlayer).folded &&
          !(t.players.getD j noPlayer).isAllIn) = true := by
        simp only [Bool.and_eq_true, bne_iff_ne, ne_eq, Bool.not_eq_true']
        exact ⟨⟨hjsid, hjf⟩, hja⟩
      simp only [hc, if_true]
    have hgj2 : T2.players.getD j noPlayer =
        { t.players.getD j noPlayer with hasActedThisRound := false } := by
      rw [hT2]
      show ((t.players.map fR).set i pR).getD j noPlayer = _
      rw [getD_set_ne _ _ _ _ _ hji, getD_map_of_lt fR t.players j noPlayer noPlayer hj,
        hfRj]
    have hgi2 : T2.players.getD i noPlayer = pR := by
      rw [hT2]
      show ((t.players.map fR).set i pR).getD i noPlayer = pR
      exact getD_set_self _ _ _ _ (by simpa using hi)
    obtain ⟨r, hmv⟩ := afterAction_moves T2 i j "raise" msgA
      (by rw [hlen2]; exact hi) (by rw [hlen2]; exact hj) hji
      (by
        rw [hgi2, hpR]
        simp only [inHandP, hif, hid, Bool.not_false, Bool.true_and,
          decide_eq_true_eq]
        omega)
      (by
        rw [hgj2]
        simp only [mvQual, hjf, hjd, hja, Bool.not_false, Bool.true_and,
          Bool.and_self, decide_eq_true_eq]
        omega)
      (by rw [hgj2])
    rw [hgi2] at hmv
    refine ⟨by rw [e0], ?_, ?_, ?_, ?_, ?_, ?_⟩
    · rw [e0]
      simp only [hmv]
    · rw [e0]
      simp only [hmv]
    · rw [e0]
      simp only [hmv]
    · rw [e0]
      simp only [hmv]
      rw [getD_set_self _ _ _ _ (by rw [hlen2]; exact hi)]
    · rw [e0]
      simp only [hmv]
      rw [getD_set_self _ _ _ _ (by rw [hlen2]; exact hi)]
    · intro k hk hki hksid hkf hka
      rw [e0]
      simp only [hmv]
      rw [getD_set_ne _ _ _ _ _ hki]
      have hstep : T2.players.getD k noPlayer = fR (t.players.getD k noPlayer) := by
        rw [hT2]
        show ((t.players.map fR).set i pR).getD k noPlayer = _
        rw [getD_set_ne _ _ _ _ _ hki,
          getD_map_of_lt fR t.players k noPlayer noPlayer hk]
      rw [hstep, hfR]
      have hc : ((t.players.getD k noPlayer).socketId != sid &&
          !(t.players.getD k noPlayer).folded &&
          !(t.players.getD k noPlayer).isAllIn) = true := by
        simp only [Bool.and_eq_true, bne_iff_ne, ne_eq, Bool.not_eq_true']
        exact ⟨⟨hksid, hkf⟩, hka⟩
      simp only [hc, if_true]

/-- Preflop heads-up table used to witness `raise_legality`: seat 0
(socket 1, small blind of 1) holds the turn facing `currentBet = 2` with
`minRaise = 2`. -/
def raiseWitnessSeat1 : Player :=
  { seatedPlayer 2 "b" 98 with
    bet := 2, totalBetThisRound := 2, hasActedThisRound := true }

def raiseWitnessTable : Table :=
  { baseTable [{ seatedPlayer 1 "a" 99 with bet := 1, totalBetThisRound := 1 },
               raiseWitnessSeat1] with
    gamePhase := Phase.preflop, pot := 3, currentBet := 2, minRaise := 2,
    currentTurnPosition := 0, turnTimerArmed := true }

theorem raise_legality_witness :
    raiseWitnessTable.getPlayerIdx 1 = some 0 ∧
    ((6 ≤ raiseWitnessTable.currentBet →
      (raiseWitnessTable.playerAction 1 "raise" 6).1 = false) ∧
    (raiseWitnessTable.currentBet < 6 →
      6 - raiseWitnessTable.currentBet < raiseWitnessTable.minRaise →
      (6 : Int) ≠ (raiseWitnessTable.players.getD 0 noPlayer).chips +
        (raiseWitnessTable.players.getD 0 noPlayer).bet →
      (raiseWitnessTable.playerAction 1 "raise" 6).1 = false) ∧
    (raiseWitnessTable.currentBet < 6 →
      (raiseWitnessTable.minRaise ≤ 6 - raiseWitnessTable.currentBet ∨
        (6 : Int) = (raiseWitnessTable.players.getD 0 noPlayer).chips +
          (raiseWitnessTable.players.getD 0 noPlayer).bet) →
      6 ≤ (raiseWitnessTable.players.getD 0 noPlayer).chips +
        (raiseWitnessTable.players.getD 0 noPlayer).bet →
      ((raiseWitnessTable.playerAction 1 "raise" 6).1 = true ∧
       (raiseWitnessTable.playerAction 1 "raise" 6).2.currentBet = 6 ∧
       (raiseWitnessTable.playerAction 1 "raise" 6).2.minRaise =
         6 - raiseWitnessTable.currentBet ∧
       (raiseWitnessTable.playerAction 1 "raise" 6).2.pot =
         raiseWitnessTable.pot +
           (6 - (raiseWitnessTable.players.getD 0 noPlayer).bet) ∧
       ((raiseWitnessTable.playerAction 1 "raise" 6).2.players.getD 0
         noPlayer).chips =
         (raiseWitnessTable.players.getD 0 noPlayer).chips -
           (6 - (raiseWitnessTable.players.getD 0 noPlayer).bet) ∧
       ((raiseWitnessTable.playerAction 1 "raise" 6).2.players.getD 0
         noPlayer).bet = 6 ∧
       (∀ k, k < raiseWitnessTable.players.length → k ≠ 0 →
         (raiseWitnessTable.players.getD k noPlayer).socketId ≠ 1 →
         (raiseWitnessTable.players.getD k noPlayer).folded = false →
         (raiseWitnessTable.players.getD k noPlayer).isAllIn = false →
         ((raiseWitnessTable.playerAction 1 "raise" 6).2.players.getD k
           noPlayer).hasActedThisRound = false)))) :=
  ⟨by decide, raise_legality raiseWitnessTable 1 0 1 6 (by decide) (by decide)
    (by decide) (by decide) (by decide) (by decide) (by decide) (by decide)
    (by decide) (by decide)⟩

/-- Mid-hand table used to witness `check_legality`: seat 0 (socket 1) holds
the turn with its bet equal to `currentBet`, seat 1 still has to act. -/
def checkWitnessTable : Table :=
  { baseTable [{ seatedPlayer 1 "a" 98 with bet := 2, hasActedThisRound := true },
               { seatedPlayer 2 "b" 98 with bet := 2 }] with
    gamePhase := Phase.preflop, pot := 4, currentBet := 2,
    currentTurnPosition := 0, turnTimerArmed := true }

theorem check_legality_witness :
    checkWitnessTable.getPlayerIdx 1 = some 0 ∧
    (((checkWitnessTable.playerAction 1 "check" 0).1 =
      decide (checkWitnessTable.currentBet ≤
        (checkWitnessTable.players.getD 0 noPlayer).bet)) ∧
    (checkWitnessTable.currentBet ≤ (checkWitnessTable.players.getD 0 noPlayer).bet →
      (((checkWitnessTable.playerAction 1 "check" 0).2.pot = checkWitnessTable.pot ∧
       (checkWitnessTable.playerAction 1 "check" 0).2.currentBet =
         checkWitnessTable.currentBet ∧
       (checkWitnessTable.playerAction 1 "check" 0).2.minRaise =
         checkWitnessTable.minRaise ∧
       (checkWitnessTable.playerAction 1 "check" 0).2.players.map (fun p => p.chips) =
         checkWitnessTable.players.map (fun p => p.chips) ∧
       (checkWitnessTable.playerAction 1 "check" 0).2.players.map (fun p => p.bet) =
         checkWitnessTable.players.map (fun p => p.bet) ∧
       (checkWitnessTable.playerAction 1 "check" 0).2.players.map (fun p => p.folded) =
         checkWitnessTable.players.map (fun p => p.folded) ∧
       ((checkWitnessTable.playerAction 1 "check" 0).2.players.getD 0
         noPlayer).hasActedThisRound = true)))) :=
  ⟨by decide, check_legality checkWitnessTable 1 0 1 (by decide) (by decide)
    (by decide) (by decide) (by decide) (by decide) (by decide) (by decide)
    (by decide) (by decide)⟩

theorem listSwap_length (l : List Card) (i j : Nat) :
    (Deck.listSwap l i j).length = l.length := by
  rw [Deck.listSwap]
  cases l.get? i <;> cases l.get? j <;> simp

theorem shuffleAux_length (l : List Card) (i : Nat) (rands : List Nat) :
    (Deck.shuffleAux l i rands).length = l.length := by
  induction i generalizing l rands with
  | zero => rfl
  | succ i ih => rw [Deck.shuffleAux, ih, listSwap_length]

theorem reset_length (rands : List Nat) : (Deck.reset rands).length = 52 := by
  rw [Deck.reset, Deck.shuffle, shuffleAux_length]
  rfl

theorem dealN_length (k : Nat) (d : List Card) :
    (Deck.dealN k d).length = d.length - k := by
  induction k with
  | zero => rfl
  | succ k ih =>
    rw [Deck.dealN, Deck.deal, List.length_dropLast, ih]
    omega

/-- C8 counterexample. The claim — `deal()` fails with a `DeckExhausted`
error when called more than 52 times since the last `reset()` — is false in
the code: `deal()` is `this.cards.pop()`, and `pop` on an empty array
returns `undefined` (modelled `none`) without raising anything, so the 53rd
call after a reset silently yields a non-card value. -/
theorem deck_exhaustion_cex :
    Deck.dealN 52 (Deck.reset []) = [] ∧
    Deck.deal (Deck.dealN 52 (Deck.reset [])) = (none, []) := by
  have h : Deck.dealN 52 (Deck.reset []) = [] := by
    have := dealN_length 52 (Deck.reset [])
    rw [reset_length] at this
    exact List.length_eq_zero.mp (by omega)
  exact ⟨h, by rw [h]; rfl⟩

/-- C8 amended. `deal()` removes and returns the top card of a nonempty
deck; `reset()` always rebuilds a 52-card deck, after 52 deals the deck is
empty, and the 53rd call returns no card (`undefined`) instead of failing
with an error. -/
theorem deal_total_behavior :
    (∀ rands : List Nat, (Deck.reset rands).length = 52) ∧
    (∀ (d : List Card) (c : Card), d.getLast? = some c →
      Deck.deal d = (some c, d.dropLast)) ∧
    (∀ rands : List Nat, Deck.dealN 52 (Deck.reset rands) = []) ∧
    (∀ rands : List Nat, (Deck.deal (Deck.dealN 52 (Deck.reset rands))).1 = none) := by
  have hempty : ∀ rands : List Nat, Deck.dealN 52 (Deck.reset rands) = [] := by
    intro rands
    have := dealN_length 52 (Deck.reset rands)
    rw [reset_length] at this
    exact List.length_eq_zero.mp (by omega)
  refine ⟨reset_length, ?_, hempty, ?_⟩
  · intro d c hc
    rw [Deck.deal, hc]
  · intro rands
    rw [hempty rands]
    rfl

theorem deal_total_behavior_witness :
    Deck.fullDeck.getLast? = some ⟨Suit.spades, 14⟩ ∧
    Deck.deal Deck.fullDeck = (some ⟨Suit.spades, 14⟩, Deck.fullDeck.dropLast) :=
  ⟨by decide, deal_total_behavior.2.1 Deck.fullDeck ⟨Suit.spades, 14⟩ (by decide)⟩

/-- C7. Hole-card privacy of `getGameState`: the view built for connection
`sid` carries `sid`'s own hole cards (the `find?` over seats, `null` when
not seated) and is entirely insensitive to the hole cards of any seat whose
`socketId` is not `sid` — replacing seat `j`'s hole cards by anything
yields the identical view, so no other seat's cards can be derived from it. -/
theorem holeCard_privacy (t : Table) (sid j : Nat) (cs : List Card)
    (hj : j < t.players.length)
    (hsid : (t.players.getD j noPlayer).socketId ≠ sid) :
    Table.getGameState (setHoleCards t j cs) sid = Table.getGameState t sid ∧
    (Table.getGameState t sid).playerCards =
      (t.players.find? (fun p => p.socketId == sid)).map (·.cards) := by
  constructor
  · have hfind : (t.players.set j { t.players.getD j noPlayer with cards := cs }).find?
        (fun p => p.socketId == sid) = t.players.find? (fun p => p.socketId == sid) :=
      find?_set_same _ _ j _ noPlayer (by simpa using hsid) (by simpa using hsid)
    have hpub : (t.players.set j { t.players.getD j noPlayer with cards := cs }).map
        Table.publicPlayer = t.players.map Table.publicPlayer :=
      map_set_same _ _ j _ noPlayer rfl
    have hsock : (t.players.set j { t.players.getD j noPlayer with cards := cs }).map
        (fun p => p.socketId) = t.players.map (fun p => p.socketId) :=
      map_set_same _ _ j _ noPlayer rfl
    have hget : ∀ k : Nat,
        ((t.players.set j { t.players.getD j noPlayer with cards := cs }).get? k).map
          (fun p => p.socketId) = (t.players.get? k).map (fun p => p.socketId) := by
      intro k
      rw [← List.get?_map, ← List.get?_map, hsock]
    simp only [setHoleCards, Table.getGameState, List.length_set, hfind, hpub, hget]
  · rfl

theorem holeCard_privacy_witness :
    (1 : Nat) < privacyTable.players.length ∧
    (privacyTable.players.getD 1 noPlayer).socketId ≠ 1 ∧
    (Table.getGameState (setHoleCards privacyTable 1 [⟨Suit.clubs, 7⟩]) 1 =
      Table.getGameState privacyTable 1 ∧
    (Table.getGameState privacyTable 1).playerCards =
      (privacyTable.players.find? (fun p => p.socketId == 1)).map (·.cards)) :=
  ⟨by decide, by decide, holeCard_privacy privacyTable 1 1 [⟨Suit.clubs, 7⟩]
    (by decide) (by decide)⟩

/-- C6. Heads-up turn order. For every table whose active seats are exactly
`i` and `j` (in any prior state), `startNewHand` gives the dealer button to
one of the two seats, makes the dealer first to act preflop, has the dealer
post the small blind and the other seat the big blind (which becomes the
current bet); and from any heads-up in-hand state where the dealer `i` and
the other seat `j` are unfolded and not all-in, `advanceToNextStreet` (the
entry into flop, turn or river) gives the first action of the new street to
the non-dealer `j`. -/
theorem headsUp_turn_order :
    (∀ (t : Table) (rands : List Nat) (i j : Nat),
      i < t.players.length → j < t.players.length → i ≠ j → twoActive t i j →
      ((t.startNewHand rands).currentTurnPosition =
          (t.startNewHand rands).dealerPosition ∧
        ((t.startNewHand rands).dealerPosition = (i : Int) ∨
          (t.startNewHand rands).dealerPosition = (j : Int)) ∧
        (∀ x y : Nat, ((x = i ∧ y = j) ∨ (x = j ∧ y = i)) →
          (t.startNewHand rands).dealerPosition = (x : Int) →
          ((t.startNewHand rands).players.getD x noPlayer).bet =
            min t.smallBlind (t.players.getD x noPlayer).chips ∧
          ((t.startNewHand rands).players.getD y noPlayer).bet =
            min t.bigBlind (t.players.getD y noPlayer).chips ∧
          (t.startNewHand rands).currentBet =
            min t.bigBlind (t.players.getD y noPlayer).chips))) ∧
    (∀ (t : Table) (i j : Nat),
      i < t.players.length → j < t.players.length → i ≠ j → twoActive t i j →
      t.dealerPosition = (i : Int) →
      (t.players.getD i noPlayer).folded = false →
      (t.players.getD i noPlayer).isAllIn = false →
      (t.players.getD j noPlayer).folded = false →
      (t.players.getD j noPlayer).isAllIn = false →
      (t.gamePhase = Phase.preflop ∨ t.gamePhase = Phase.flop ∨
        t.gamePhase = Phase.turn) →
      (t.advanceToNextStreet.currentTurnPosition = (j : Int) ∧
        (j : Int) ≠ t.dealerPosition)) := by
  constructor
  · intro t rands i j hi hj hij hchar
    have hlen2 : t.activePlayers.length = 2 := by
      rw [Table.activePlayers, length_filter_range_getD isActiveP t.players noPlayer]
      exact filter_range_two t.players.length i j hi hj hij _
        (fun k hk => hchar k hk)
    obtain ⟨e1, e2, e3, e4⟩ := startNewHand_headsUp_fields t rands hlen2
    have hkeyT3 : (headsUpT3 t rands).players.map actKey = t.players.map actKey := by
      simp only [headsUpT3]
      rw [withDealtCards_actKey]
      exact resetForHand_actKey t rands
    have hlen3 : (headsUpT3 t rands).players.length = t.players.length :=
      map_length_eq hkeyT3
    have hchar3 : twoActive (headsUpT3 t rands) i j :=
      twoActive_congr _ t hkeyT3 i j hchar
    have hd3 : (headsUpT3 t rands).dealerPosition =
        (t.resetForHand rands).getNextActivePosition t.dealerPosition := rfl
    have hdpair : (headsUpT3 t rands).dealerPosition = (i : Int) ∨
        (headsUpT3 t rands).dealerPosition = (j : Int) := by
      rw [hd3,
        nextActive_congr (t.resetForHand rands) t (resetForHand_actKey t rands)]
      exact nextActive_mem_pair t i j hi hj hij hchar t.dealerPosition
    refine ⟨?_, ?_, ?_⟩
    · rw [e1, e2]
    · rw [e2]
      exact hdpair
    · intro x y hxy hdx
      rw [e2] at hdx
      have hfacts : x < t.players.length ∧ y < t.players.length ∧ x ≠ y ∧
          twoActive (headsUpT3 t rands) x y := by
        rcases hxy with ⟨rfl, rfl⟩ | ⟨rfl, rfl⟩
        · exact ⟨hi, hj, hij, hchar3⟩
        · exact ⟨hj, hi, fun hc => hij hc.symm, twoActive_swap _ _ _ hchar3⟩
      obtain ⟨hxn, hyn, hxyne, hcharxy⟩ := hfacts
      have hx3 : x < (headsUpT3 t rands).players.length := by
        rw [hlen3]
        exact hxn
      have hy3 : y < (headsUpT3 t rands).players.length := by
        rw [hlen3]
        exact hyn
      have hbb : headsUpBB t rands = (y : Int) := by
        simp only [headsUpBB]
        rw [hdx]
        exact nextActive_pair_aux (headsUpT3 t rands) x y hx3 hy3 hxyne hcharxy
      have hT4eq : headsUpT4 t rands =
          (headsUpT3 t rands).postBlind (x : Int) (headsUpT3 t rands).smallBlind := by
        simp only [headsUpT4]
        rw [hdx]
      have hxtoNat : ((x : Int)).toNat = x := Int.toNat_ofNat x
      have hchipsx : ((headsUpT3 t rands).players.getD x noPlayer).chips =
          (t.players.getD x noPlayer).chips :=
        congrArg Prod.fst (actKey_getD _ _ hkeyT3 x)
      have hchipsy : ((headsUpT3 t rands).players.getD y noPlayer).chips =
          (t.players.getD y noPlayer).chips :=
        congrArg Prod.fst (actKey_getD _ _ hkeyT3 y)
      have hbetx : ((headsUpT4 t rands).players.getD x noPlayer).bet =
          min t.smallBlind (t.players.getD x noPlayer).chips := by
        rw [hT4eq]
        have hx' : ((x : Int)).toNat < (headsUpT3 t rands).players.length := by
          rw [hxtoNat]
          exact hx3
        have hb := postBlind_bet_self (headsUpT3 t rands) (x : Int)
          (headsUpT3 t rands).smallBlind hx'
        rw [hxtoNat] at hb
        rw [hb, show (headsUpT3 t rands).smallBlind = t.smallBlind from rfl,
          hchipsx]
      have hT4y : (headsUpT4 t rands).players.getD y noPlayer =
          (headsUpT3 t rands).players.getD y noPlayer := by
        rw [hT4eq]
        exact postBlind_getD_ne _ _ _ y (by
          rw [hxtoNat]
          exact Ne.symm hxyne)
      refine ⟨?_, ?_, ?_⟩
      · rw [e4]
        have hne : x ≠ (headsUpBB t rands).toNat := by
          rw [hbb, Int.toNat_ofNat]
          exact hxyne
        rw [postBlind_getD_ne _ _ _ x hne]
        exact hbetx
      · rw [e4, hbb]
        have hy' : ((y : Int)).toNat < (headsUpT4 t rands).players.length := by
          rw [Int.toNat_ofNat, hT4eq, postBlind_length]
          exact hy3
        have hb := postBlind_bet_self (headsUpT4 t rands) (y : Int) t.bigBlind hy'
        rw [Int.toNat_ofNat] at hb
        rw [hb, hT4y, hchipsy]
      · rw [e3, hbb, Int.toNat_ofNat, hT4y, hchipsy]
  · intro t i j hi hj hij hchar hdealer hif hia hjf hja hphase
    have hSkey : t.streetReset.players.map actKey = t.players.map actKey :=
      streetReset_actKey t
    have hSlen : t.streetReset.players.length = t.players.length :=
      map_length_eq hSkey
    have hcan2 : (((t.streetReset.playersInHand.filter (fun p => !p.folded)).filter
        (fun p => !p.isAllIn && decide (0 < p.chips))).length) = 2 := by
      rw [Table.playersInHand, List.filter_filter, List.filter_filter]
      rw [length_filter_range_getD _ t.streetReset.players noPlayer, hSlen]
      refine filter_range_two t.players.length i j hi hj hij _ ?_
      intro k hk
      rw [streetReset_getD t k hk]
      have hiff := hchar k hk
      simp only [isActiveP, Bool.and_eq_true, Bool.not_eq_true',
        decide_eq_true_eq] at hiff
      simp only [inHandP, Bool.and_eq_true, Bool.not_eq_true', decide_eq_true_eq]
      constructor
      · rintro ⟨⟨⟨hAll, hchips⟩, hfold⟩, ⟨⟨hfold2, hdisc⟩, hnn⟩⟩
        exact hiff.mp ⟨hchips, hdisc⟩
      · intro hk'
        obtain ⟨hchips, hdisc⟩ := hiff.mpr hk'
        rcases hk' with rfl | rfl
        · exact ⟨⟨⟨hia, hchips⟩, hif⟩, ⟨⟨hif, hdisc⟩, by omega⟩⟩
        · exact ⟨⟨⟨hja, hchips⟩, hjf⟩, ⟨⟨hjf, hdisc⟩, by omega⟩⟩
    have hcan : ¬(((t.streetReset.playersInHand.filter (fun p => !p.folded)).filter
        (fun p => !p.isAllIn && decide (0 < p.chips))).length ≤ 1) := by
      rw [hcan2]
      omega
    have hphaseS : t.streetReset.gamePhase = Phase.preflop ∨
        t.streetReset.gamePhase = Phase.flop ∨
        t.streetReset.gamePhase = Phase.turn := hphase
    have hshow := dealNextStreet_not_showdown t.streetReset hphaseS
    rw [advance_open_turn t hcan hshow]
    have hD : t.streetReset.dealNextStreet.players = t.streetReset.players :=
      dealNextStreet_players t.streetReset
    have hDd : t.streetReset.dealNextStreet.dealerPosition =
        t.streetReset.dealerPosition := dealNextStreet_dealer t.streetReset
    have hDkey : t.streetReset.dealNextStreet.players.map actKey =
        t.players.map actKey := by
      rw [hD]
      exact hSkey
    have hDlen : t.streetReset.dealNextStreet.players.length =
        t.players.length := map_length_eq hDkey
    have hcharD : twoActive t.streetReset.dealNextStreet i j :=
      twoActive_congr _ t hDkey i j hchar
    have hiD : i < t.streetReset.dealNextStreet.players.length := by
      rw [hDlen]
      exact hi
    have hjD : j < t.streetReset.dealNextStreet.players.length := by
      rw [hDlen]
      exact hj
    have hnext : t.streetReset.dealNextStreet.getNextActivePosition
        t.streetReset.dealNextStreet.dealerPosition = (j : Int) := by
      rw [hDd, show t.streetReset.dealerPosition = t.dealerPosition from rfl,
        hdealer]
      exact nextActive_pair_aux _ i j hiD hjD hij hcharD
    have hqj : skipQual
        (t.streetReset.dealNextStreet.players.getD j noPlayer) = true := by
      rw [hD, streetReset_getD t j hj]
      have hact := (hchar j hj).mpr (Or.inr rfl)
      simp only [isActiveP, Bool.and_eq_true, Bool.not_eq_true',
        decide_eq_true_eq] at hact
      simp only [skipQual, Bool.and_eq_true, Bool.not_eq_true',
        decide_eq_true_eq]
      exact ⟨⟨hjf, hja⟩, hact.1⟩
    constructor
    · show t.streetReset.dealNextStreet.skipLoop
        t.streetReset.dealNextStreet.players.length
        (t.streetReset.dealNextStreet.getNextActivePosition
          t.streetReset.dealNextStreet.dealerPosition) = (j : Int)
      obtain ⟨f, hf⟩ : ∃ f, t.streetReset.dealNextStreet.players.length = f + 1 :=
        ⟨t.streetReset.dealNextStreet.players.length - 1, by
          rw [hDlen]
          omega⟩
      rw [hnext, hf]
      exact skipLoop_qual _ f j hjD hqj
    · rw [hdealer]
      intro hc
      have : j = i := by exact_mod_cast hc
      omega

def headsUpWitnessA : Table :=
  baseTable [seatedPlayer 1 "a" 100, seatedPlayer 2 "b" 100]

def headsUpWitnessB : Table :=
  { baseTable [seatedPlayer 1 "a" 99, seatedPlayer 2 "b" 98] with
    dealerPosition := 0, gamePhase := Phase.preflop, pot := 3 }

theorem headsUp_turn_order_witness :
    ((headsUpWitnessA.startNewHand []).currentTurnPosition =
        (headsUpWitnessA.startNewHand []).dealerPosition ∧
      ((headsUpWitnessA.startNewHand []).dealerPosition = ((0 : Nat) : Int) ∨
        (headsUpWitnessA.startNewHand []).dealerPosition = ((1 : Nat) : Int))) ∧
    (headsUpWitnessB.advanceToNextStreet.currentTurnPosition = ((1 : Nat) : Int) ∧
      ((1 : Nat) : Int) ≠ headsUpWitnessB.dealerPosition) := by
  have hA := headsUp_turn_order.1 headsUpWitnessA [] 0 1 (by decide) (by decide)
    (by decide) (by unfold twoActive; decide)
  have hB := headsUp_turn_order.2 headsUpWitnessB 0 1 (by decide) (by decide)
    (by decide) (by unfold twoActive; decide) (by decide) (by decide) (by decide)
    (by decide) (by decide) (Or.inl rfl)
  exact ⟨⟨hA.1, hA.2.1⟩, hB⟩

/-- C4. Chip conservation across a hand. (A) Starting a hand collects
exactly the two blinds: the seats' chips plus the fresh pot equal the chips
held before the hand. (B) Every `playerAction` call — rejected or accepted,
including one that ends the hand — satisfies `moneyConserved`: chips plus
pot are unchanged, except a pot award to `k` tied winners which falls short
by exactly `pot mod k ≤ k - 1` chips. (C/D) A showdown split among `k ≥ 2`
tied winners pays the stacks exactly `pot - pot mod k` and keeps the pot
field. (E) A whole-pot award (`endHand`) adds exactly the pot to the
stacks. Hypotheses: stacks, pot and `currentBet` nonnegative, and (for B)
every seat's street bet at most the pot — invariants of reachable states
(each bet was itself added to the pot when posted), and ones that hold in
particular in the short-big-blind states where a seat's bet exceeds
`currentBet`. -/
theorem chip_conservation :
    (∀ (t : Table) (rands : List Nat),
      0 ≤ t.smallBlind → 0 ≤ t.bigBlind → ¬(t.activePlayers.length < 2) →
      chipSum (t.startNewHand rands).players + (t.startNewHand rands).pot =
        chipSum t.players) ∧
    (∀ (t : Table) (sid : Nat) (action : String) (amount : Int),
      (∀ p ∈ t.players, 0 ≤ p.chips) → 0 ≤ t.pot → 0 ≤ t.currentBet →
      (∀ p ∈ t.players, p.bet ≤ t.pot) →
      moneyConserved t (t.playerAction sid action amount).2) ∧
    (∀ t : Table,
      (∀ p ∈ t.players, 0 ≤ p.chips) → 0 ≤ t.pot →
      2 ≤ t.showdownWinners.length →
      chipSum t.determineWinner.players =
        chipSum t.players + t.pot -
          Int.fmod t.pot (t.showdownWinners.length : Int) ∧
      t.determineWinner.pot = t.pot ∧
      0 ≤ Int.fmod t.pot (t.showdownWinners.length : Int) ∧
      Int.fmod t.pot (t.showdownWinners.length : Int) ≤
        (t.showdownWinners.length : Int) - 1) ∧
    (∀ (t : Table) (i : Nat), i < t.players.length →
      (∀ p ∈ t.players, 0 ≤ p.chips) → 0 ≤ t.pot →
      chipSum (t.endHand i).players = chipSum t.players + t.pot ∧
      (t.endHand i).pot = t.pot) := by
  refine ⟨?_, ?_, ?_, ?_⟩
  · intro t rands hsb hbb h2
    exact startNewHand_conserve t rands hsb hbb h2
  · intro t sid action amount h hpot hcb hbp
    exact playerAction_money t sid action amount h hpot hcb hbp
  · intro t h hpot hk2
    have hwle : t.showdownWinners.length ≤ t.showdownIdxs.length := by
      simp only [Table.showdownWinners]
      exact List.length_filter_le _ _
    have h0 : ¬((t.showdownIdxs.length == 0) = true) := by
      simp only [beq_iff_eq]
      omega
    have h1 : ¬((t.showdownIdxs.length == 1) = true) := by
      simp only [beq_iff_eq]
      omega
    have hw1 : ¬((t.showdownWinners.length == 1) = true) := by
      simp only [beq_iff_eq]
      omega
    have hkpos : (0 : Int) < (t.showdownWinners.length : Int) := by
      exact_mod_cast (by omega : 0 < t.showdownWinners.length)
    have hDW : t.determineWinner =
        (({ t with
            players := Table.addChipsAt t.players t.showdownWinners
              (Int.fdiv t.pot (t.showdownWinners.length : Int))
          }).broadcastAction "split pot").scheduleNextHand := by
      simp only [Table.determineWinner]
      rw [if_neg h0, if_neg h1, if_neg hw1]
    have hsplitnn : 0 ≤ Int.fdiv t.pot (t.showdownWinners.length : Int) :=
      Int.fdiv_nonneg hpot (by omega)
    have hcs : chipSum (Table.addChipsAt t.players t.showdownWinners
        (Int.fdiv t.pot (t.showdownWinners.length : Int))) =
        chipSum t.players + (t.showdownWinners.length : Int) *
          Int.fdiv t.pot (t.showdownWinners.length : Int) :=
      addChipsAt_conserve _ _ _ (showdownWinners_lt t)
    have hnn2 : ∀ p ∈ Table.addChipsAt t.players t.showdownWinners
        (Int.fdiv t.pot (t.showdownWinners.length : Int)), 0 ≤ p.chips :=
      addChipsAt_nonneg _ _ _ hsplitnn h
    obtain ⟨m1, m2⟩ := scheduleNextHand_money
      (({ t with
          players := Table.addChipsAt t.players t.showdownWinners
            (Int.fdiv t.pot (t.showdownWinners.length : Int))
        }).broadcastAction "split pot") hnn2
    refine ⟨?_, ?_, ?_, ?_⟩
    · rw [hDW, m1]
      show chipSum (Table.addChipsAt t.players t.showdownWinners
        (Int.fdiv t.pot (t.showdownWinners.length : Int))) =
        chipSum t.players + t.pot - Int.fmod t.pot (t.showdownWinners.length : Int)
      rw [hcs]
      have hfd := Int.fdiv_add_fmod t.pot (t.showdownWinners.length : Int)
      linarith
    · rw [hDW, m2]
      rfl
    · exact Int.fmod_nonneg' t.pot hkpos
    · have := Int.fmod_lt_of_pos t.pot hkpos
      omega
  · intro t i hi h hpot
    exact endHand_money t i hi h hpot

def chipWitnessA : Table :=
  baseTable [seatedPlayer 1 "a" 100, seatedPlayer 2 "b" 100]

def chipWitnessBBase : Table :=
  baseTable [{ seatedPlayer 1 "a" 99 with bet := 1 }, { seatedPlayer 2 "b" 98 with bet := 2 }]

def chipWitnessB : Table :=
  { chipWitnessBBase with
    gamePhase := Phase.preflop, pot := 3, currentBet := 2,
    currentTurnPosition := 0, turnTimerArmed := true }

def chipWitnessD : Table :=
  { baseTable [seatedPlayer 1 "a" 10, seatedPlayer 2 "b" 20] with
    gamePhase := Phase.showdown, pot := 5 }

/-- The post-blind state of a heads-up hand with blinds 2/4 and a
1-chip big blind: the small blind's street bet (2) exceeds `currentBet`
(the all-in big blind's 1) while the small blind holds the turn — the
reachable state where the check guard's `<` shows, covered by part B. -/
def chipWitnessShortBBBase : Table :=
  baseTable [{ seatedPlayer 1 "a" 98 with bet := 2 },
    { seatedPlayer 2 "b" 0 with bet := 1, isAllIn := true }]

def chipWitnessShortBB : Table :=
  { chipWitnessShortBBBase with
    gamePhase := Phase.preflop, pot := 3, currentBet := 1, smallBlind := 2,
    bigBlind := 4, currentTurnPosition := 0, turnTimerArmed := true }

theorem chip_conservation_witness :
    (chipSum (chipWitnessA.startNewHand []).players +
        (chipWitnessA.startNewHand []).pot = chipSum chipWitnessA.players) ∧
    moneyConserved chipWitnessB (chipWitnessB.playerAction 1 "call" 0).2 ∧
    moneyConserved chipWitnessShortBB
      (chipWitnessShortBB.playerAction 1 "call" 0).2 ∧
    (chipSum chipWitnessD.determineWinner.players =
      chipSum chipWitnessD.players + chipWitnessD.pot -
        Int.fmod chipWitnessD.pot (chipWitnessD.showdownWinners.length : Int)) ∧
    (chipSum (chipWitnessD.endHand 0).players =
      chipSum chipWitnessD.players + chipWitnessD.pot) := by
  refine ⟨?_, ?_, ?_, ?_, ?_⟩
  · exact chip_conservation.1 chipWitnessA [] (by decide) (by decide) (by decide)
  · exact chip_conservation.2.1 chipWitnessB 1 "call" 0 (by decide) (by decide)
      (by decide) (by decide)
  · exact chip_conservation.2.1 chipWitnessShortBB 1 "call" 0 (by decide)
      (by decide) (by decide) (by decide)
  · exact (chip_conservation.2.2.1 chipWitnessD (by decide) (by decide)
      (by decide)).1
  · exact (chip_conservation.2.2.2 chipWitnessD 0 (by decide) (by decide)
      (by decide)).1

end HoldEm

